import Mathlib

/-!
Verification development for the `gomysqld` repository.

The Go sources are shallowly embedded: Go maps become association lists
(kept in insertion order, which determinizes Go's unspecified map
iteration order), byte slices become `List Char` (the inputs of interest
are ASCII), errors become an explicit `GoError` inductive, and functions
with side effects are modelled by explicit state passing.  Filesystem and
subprocess effects are modelled by explicit environments recording the
outcome of each external step.
-/

set_option maxHeartbeats 1000000

namespace GoMysqld

/-! ## Byte-level helpers (package `bytes` / `strings`)

`isSpaceB` is the ASCII part of `unicode.IsSpace`, which is what
`bytes.TrimSpace` uses; the configuration texts in question are ASCII. -/

def vtab : Char := Char.ofNat 11

def formfeed : Char := Char.ofNat 12

def isSpaceB (c : Char) : Bool :=
  c = ' ' || c = '\t' || c = '\n' || c = vtab || c = formfeed || c = '\r'

/-- `bytes.TrimSpace`: drop leading and trailing whitespace. -/
def trimSpace (l : List Char) : List Char :=
  ((l.dropWhile isSpaceB).reverse.dropWhile isSpaceB).reverse

/-- `bytes.IndexAny`: index of the first byte that is any of `chars`. -/
def indexAny (l : List Char) (chars : List Char) : Option Nat :=
  match l with
  | [] => none
  | c :: rest =>
      if chars.contains c then some 0
      else (indexAny rest chars).map (fun n => n + 1)

/-! ## The `cnf` package data model (`Config`, `Section`)

Go's `map[string]string` / `map[string]*Section` are embedded as
association lists with unique keys, in insertion order.  The Go
identifier `Section` is both the struct name and the `Config` field name;
in Lean the struct is called `CnfSection` and the field keeps the source
name `Section`. -/

structure CnfSection where
  Header : List String
  options : List (String × String)
deriving DecidableEq, Repr

structure Config where
  Header : List String
  Section : List (String × CnfSection)
deriving DecidableEq, Repr

/-- Go error values relevant to this development.  Sentinel errors
(`errors.New` package variables) are distinct constructors; an error
built at the failure site with `fmt.Errorf` is `formatted msg`; errors
propagated from the OS or subprocesses keep enough structure to be
distinguished from the sentinels. -/
inductive GoError where
  | sectionPresent
  | sectionMissing
  | invalidDist
  | versionNotFound
  | stableExists
  | parseIntError (s : String)
  | execFailed (cmd : String)
  | statFailed (path : String)
  | openFailed (path : String)
  | mkdirFailed (path : String)
  | createFailed (path : String)
  | eexist
  | enoent
  | formatted (msg : String)
deriving DecidableEq, Repr

/-! Association-list counterparts of Go map lookup, insert and delete. -/

def assocFind {α : Type} (l : List (String × α)) (k : String) : Option α :=
  match l with
  | [] => none
  | (k', v) :: rest => if k' = k then some v else assocFind rest k

def assocSet {α : Type} (l : List (String × α)) (k : String) (v : α) :
    List (String × α) :=
  match l with
  | [] => [(k, v)]
  | (k', v') :: rest =>
      if k' = k then (k', v) :: rest else (k', v') :: assocSet rest k v

def assocErase {α : Type} (l : List (String × α)) (k : String) :
    List (String × α) :=
  match l with
  | [] => []
  | (k', v') :: rest => if k' = k then rest else (k', v') :: assocErase rest k

/-- `cnf.New`: a new empty configuration structure. -/
def cnfNew : Config := { Header := [], Section := [] }

/-- `Config.AddSection`: fails with `ErrSectionPresent` if the section is
already present, otherwise adds a fresh empty section. -/
def Config.AddSection (cnf : Config) (name : String) :
    Except GoError (Config × CnfSection) :=
  match assocFind cnf.Section name with
  | some _ => .error .sectionPresent
  | none =>
      let sec : CnfSection := { Header := [], options := [] }
      .ok ({ cnf with Section := cnf.Section ++ [(name, sec)] }, sec)

/-- `Config.RemoveSection`: the source returns
`fmt.Errorf("Section %q missing", section)` when the section is absent
(not the `ErrSectionMissing` sentinel), and deletes the entry otherwise. -/
def Config.RemoveSection (cnf : Config) (name : String) :
    Except GoError Config :=
  match assocFind cnf.Section name with
  | none => .error (.formatted ("Section \"" ++ name ++ "\" missing"))
  | some _ => .ok { cnf with Section := assocErase cnf.Section name }

/-- `Section.SetString`: set (insert or overwrite) an option value. -/
def CnfSection.SetString (sec : CnfSection) (opt val : String) : CnfSection :=
  { sec with options := assocSet sec.options opt val }

/-- `Section.GetString`: Go map read with zero value `""` when absent. -/
def CnfSection.GetString (sec : CnfSection) (opt : String) : String :=
  (assocFind sec.options opt).getD ""

/-- `cnf.trimLine`: split a raw line at the first `;` or `#`, trimming
both the line part and the comment part. -/
def trimLine (line : List Char) : List Char × Option (List Char) :=
  match indexAny line [';', '#'] with
  | some pos => (trimSpace (line.take pos), some (trimSpace (line.drop (pos + 1))))
  | none => (trimSpace line, none)

/-! ## Lemmas about `indexAny` -/

theorem indexAny_append_first (l1 l2 : List Char) (c : Char) (chars : List Char)
    (hc : c ∈ chars) (h1 : ∀ x ∈ l1, x ∉ chars) :
    indexAny (l1 ++ c :: l2) chars = some l1.length := by
  induction l1 with
  | nil => simp [indexAny, hc]
  | cons x rest ih =>
      have hx : x ∉ chars := h1 x (by simp)
      have ih' := ih (fun y hy => h1 y (by simp [hy]))
      simp [indexAny, hx, ih']

theorem indexAny_eq_none (l chars : List Char)
    (h : ∀ x ∈ l, x ∉ chars) :
    indexAny l chars = none := by
  induction l with
  | nil => rfl
  | cons x rest ih =>
      have hx : x ∉ chars := h x (by simp)
      have ih' := ih (fun y hy => h y (by simp [hy]))
      simp [indexAny, hx, ih']

/-- C9: splitting a trimmed line at a comment marker uses the first
occurrence of either `;` or `#`: for every line containing such a marker,
the text before the first marker (whitespace-trimmed) is returned as the
line and everything after the marker (whitespace-trimmed, kept verbatim
including later markers) as the comment. -/
theorem trimLine_first_marker (l1 l2 : List Char) (c : Char)
    (hc : c = ';' ∨ c = '#')
    (h1 : ∀ x ∈ l1, x ≠ ';' ∧ x ≠ '#') :
    trimLine (l1 ++ c :: l2) = (trimSpace l1, some (trimSpace l2)) := by
  have hc' : c ∈ ([';', '#'] : List Char) := by
    rcases hc with h | h <;> simp [h]
  have h1' : ∀ x ∈ l1, x ∉ ([';', '#'] : List Char) := by
    intro x hx
    rcases h1 x hx with ⟨hs, hh⟩
    simp [hs, hh]
  have hidx := indexAny_append_first l1 l2 c [';', '#'] hc' h1'
  have htake : (l1 ++ c :: l2).take l1.length = l1 := List.take_left l1 (c :: l2)
  have hdrop : (l1 ++ c :: l2).drop (l1.length + 1) = l2 := by
    rw [show l1 ++ c :: l2 = (l1 ++ [c]) ++ l2 by simp,
      show l1.length + 1 = (l1 ++ [c]).length by simp]
    exact List.drop_left _ _
  simp [trimLine, hidx, htake, hdrop]

/-- C9 witness: the claim's concrete example, by applying
`trimLine_first_marker` at the comma-split of `"x=12;#just a test"`. -/
theorem trimLine_first_marker_witness :
    trimLine ("x=12;#just a test".toList) =
      ("x=12".toList, some ("#just a test".toList)) := by
  have h := trimLine_first_marker "x=12".toList "#just a test".toList ';'
    (Or.inl rfl) (by decide)
  have e : "x=12;#just a test".toList = "x=12".toList ++ ';' :: "#just a test".toList := by
    decide
  rw [e, h]
  decide

/-- Helper: a one-section document, for concrete evaluations. -/
def cnfWithA : Config :=
  { Header := [], Section := [("a", { Header := [], options := [] })] }

/-- C5: `AddSection` on a present name fails with the `SectionPresent`
sentinel and leaves the document unchanged; after a successful
`RemoveSection` the section is gone from the enumeration; but
`RemoveSection` on an absent name returns the ad hoc
`fmt.Errorf("Section %q missing", ...)` error, not the `ErrSectionMissing`
sentinel its own doc comment promises — evaluated here at the failing
input. -/
theorem cnf_removeSection_adhoc_error :
    Config.AddSection cnfWithA "a" = .error .sectionPresent
    ∧ Config.RemoveSection cnfNew "x" =
        .error (.formatted "Section \"x\" missing")
    ∧ Config.RemoveSection cnfNew "x" ≠ .error .sectionMissing
    ∧ Config.RemoveSection cnfWithA "a" = .ok cnfNew
    ∧ assocFind cnfNew.Section "a" = none := by
  refine ⟨rfl, rfl, ?_, rfl, rfl⟩
  intro h
  rw [show Config.RemoveSection cnfNew "x" =
    .error (.formatted "Section \"x\" missing") from rfl] at h
  simp at h

/-! ## The logical-line scanner (`cnf.scanLogicalLines`)

The Go split function walks the data byte by byte keeping a token
accumulator and two indices `beg`, `end` into the current chunk: `end` is
the index of the last backslash seen since `beg`, or unset.  Here the
chunk is carried as two lists: `bef` is `data[beg:end]` (the bytes that
will be retained if the pending newline turns out to be a continuation)
and `aft?` is `some data[end:i]` when `end` is set (the last backslash
and everything after it, dropped at a continuation) or `none` when no
backslash has been seen in the chunk.  `Read` consumes the whole input,
so the split function is modelled at `atEOF = true`; it returns the first
token and the unconsumed rest, or `none` on empty input (scan stop). -/

def scanChunks (token bef : List Char) (aft? : Option (List Char)) :
    List Char → Option (List Char × List Char)
  | [] => some (token ++ bef ++ aft?.getD [], [])
  | c :: rest =>
      if c = '\\' then
        scanChunks token (bef ++ aft?.getD []) (some ['\\']) rest
      else if c = '\n' then
        match aft? with
        | none => some (token ++ bef, rest)
        | some _ => scanChunks (token ++ bef) [] none rest
      else
        match aft? with
        | none => scanChunks token (bef ++ [c]) none rest
        | some a => scanChunks token bef (some (a ++ [c])) rest

def scanLogicalLines (data : List Char) : Option (List Char × List Char) :=
  match data with
  | [] => none
  | _ => scanChunks [] [] none data

/-- The `bufio.Scanner` loop: repeatedly apply the split function and
collect tokens.  Structural recursion on a fuel argument so the function
computes by kernel reduction; `data.length + 1` units always suffice. -/
def logicalLinesFuel : Nat → List Char → List (List Char)
  | 0, _ => []
  | fuel + 1, data =>
      match scanLogicalLines data with
      | none => []
      | some (tok, rest) => tok :: logicalLinesFuel fuel rest

def logicalLines (data : List Char) : List (List Char) :=
  logicalLinesFuel (data.length + 1) data

/-! ## Reference descriptions of the logical-line scanner

`splitNL` splits off the first physical line.  `refFirst` follows the
scanner's actual joining rule (a newline joins whenever the physical
line contains any backslash, retaining the bytes before the last
backslash of the line); `claimFirst` follows the claim's words (a
newline joins only when immediately preceded by a backslash, stripping
exactly that pair).  Both are fueled so they compute by reduction. -/

def splitNL : List Char → Option (List Char × List Char)
  | [] => none
  | c :: rest =>
      if c = '\n' then some ([], rest)
      else
        match splitNL rest with
        | none => none
        | some (l, r) => some (c :: l, r)

/-- The prefix of `l` strictly before its last backslash (`[]` when `l`
has no backslash; only used under a backslash-membership guard). -/
def beforeLastBS : List Char → List Char
  | [] => []
  | c :: l => if '\\' ∈ l then c :: beforeLastBS l else []

def refFirstFuel : Nat → List Char → List Char × List Char
  | 0, data => (data, [])
  | fuel + 1, data =>
      match splitNL data with
      | none => (data, [])
      | some (l, rest) =>
          if '\\' ∈ l then
            let p := refFirstFuel fuel rest
            (beforeLastBS l ++ p.1, p.2)
          else (l, rest)

def refFirst (data : List Char) : List Char × List Char :=
  refFirstFuel (data.length + 1) data

def refTokensFuel : Nat → List Char → List (List Char)
  | 0, _ => []
  | fuel + 1, data =>
      match data with
      | [] => []
      | _ =>
          let p := refFirst data
          p.1 :: refTokensFuel fuel p.2

def refTokens (data : List Char) : List (List Char) :=
  refTokensFuel (data.length + 1) data

def claimFirstFuel : Nat → List Char → List Char × List Char
  | 0, data => (data, [])
  | fuel + 1, data =>
      match splitNL data with
      | none => (data, [])
      | some (l, rest) =>
          if l.getLast? = some '\\' then
            let p := claimFirstFuel fuel rest
            (l.dropLast ++ p.1, p.2)
          else (l, rest)

def claimFirst (data : List Char) : List Char × List Char :=
  claimFirstFuel (data.length + 1) data

def claimTokensFuel : Nat → List Char → List (List Char)
  | 0, _ => []
  | fuel + 1, data =>
      match data with
      | [] => []
      | _ =>
          let p := claimFirst data
          p.1 :: claimTokensFuel fuel p.2

def claimTokens (data : List Char) : List (List Char) :=
  claimTokensFuel (data.length + 1) data

/-! ## Facts about `splitNL` -/

theorem splitNL_none_no_nl (data : List Char) (h : splitNL data = none) :
    '\n' ∉ data := by
  induction data with
  | nil => simp
  | cons c rest ih =>
      by_cases hc : c = '\n'
      · subst hc; simp [splitNL] at h
      · cases hsp : splitNL rest with
        | none =>
            simp only [List.mem_cons, not_or]
            exact ⟨fun h2 => hc h2.symm, ih hsp⟩
        | some p =>
            obtain ⟨l, r⟩ := p
            simp [splitNL, hc, hsp] at h

theorem splitNL_some_shape (data l rest : List Char)
    (h : splitNL data = some (l, rest)) :
    data = l ++ '\n' :: rest ∧ '\n' ∉ l := by
  induction data generalizing l with
  | nil => simp [splitNL] at h
  | cons c d ih =>
      by_cases hc : c = '\n'
      · subst hc
        simp [splitNL] at h
        obtain ⟨rfl, rfl⟩ := h
        simp
      · cases hsp : splitNL d with
        | none => simp [splitNL, hc, hsp] at h
        | some p =>
            obtain ⟨l', r'⟩ := p
            simp [splitNL, hc, hsp] at h
            obtain ⟨rfl, rfl⟩ := h
            obtain ⟨hshape, hnl⟩ := ih l' hsp
            constructor
            · rw [hshape]; rfl
            · simp only [List.mem_cons, not_or]
              exact ⟨fun h2 => hc h2.symm, hnl⟩

/-! ## Single-line behaviour of `scanChunks` -/

theorem beforeLastBS_cons (c : Char) (l : List Char) :
    beforeLastBS (c :: l) = if '\\' ∈ l then c :: beforeLastBS l else [] := rfl

theorem scanChunks_eof : ∀ (l : List Char), '\n' ∉ l →
    ∀ (token bef : List Char) (aft? : Option (List Char)),
    scanChunks token bef aft? l = some (token ++ bef ++ aft?.getD [] ++ l, []) := by
  intro l
  induction l with
  | nil =>
      intro _ token bef aft?
      simp [scanChunks]
  | cons c l ih =>
      intro hnl token bef aft?
      have hc : ¬c = '\n' := fun h => hnl (by simp [h])
      have hl : '\n' ∉ l := fun h => hnl (by simp [h])
      by_cases hbs : c = '\\'
      · subst hbs
        rw [show scanChunks token bef aft? ('\\' :: l) =
          scanChunks token (bef ++ aft?.getD []) (some ['\\']) l from by
            simp [scanChunks]]
        rw [ih hl]
        simp
      · cases aft? with
        | none =>
            rw [show scanChunks token bef none (c :: l) =
              scanChunks token (bef ++ [c]) none l from by
                simp [scanChunks, hbs, hc]]
            rw [ih hl]
            simp
        | some a =>
            rw [show scanChunks token bef (some a) (c :: l) =
              scanChunks token bef (some (a ++ [c])) l from by
                simp [scanChunks, hbs, hc]]
            rw [ih hl]
            simp

theorem scanChunks_line : ∀ (l : List Char), '\n' ∉ l →
    ∀ (token bef : List Char) (aft? : Option (List Char)) (rest : List Char),
    scanChunks token bef aft? (l ++ '\n' :: rest) =
      if aft? = none ∧ '\\' ∉ l then some (token ++ bef ++ l, rest)
      else
        scanChunks
          (token ++ bef ++ (if '\\' ∈ l then aft?.getD [] ++ beforeLastBS l else []))
          [] none rest := by
  intro l
  induction l with
  | nil =>
      intro _ token bef aft? rest
      cases aft? with
      | none => simp [scanChunks]
      | some a => simp [scanChunks]
  | cons c l ih =>
      intro hnl token bef aft? rest
      have hc : ¬c = '\n' := fun h => hnl (by simp [h])
      have hl : '\n' ∉ l := fun h => hnl (by simp [h])
      by_cases hbs : c = '\\'
      · subst hbs
        rw [show scanChunks token bef aft? (('\\' :: l) ++ '\n' :: rest) =
          scanChunks token (bef ++ aft?.getD []) (some ['\\']) (l ++ '\n' :: rest) from by
            simp [scanChunks]]
        rw [ih hl]
        have hmem : ('\\' : Char) ∈ '\\' :: l := by simp
        by_cases hbl : '\\' ∈ l
        · simp [hbl, hmem, beforeLastBS_cons, List.append_assoc]
        · simp [hbl, hmem, beforeLastBS_cons, List.append_assoc]
      · cases aft? with
        | none =>
            rw [show scanChunks token bef none ((c :: l) ++ '\n' :: rest) =
              scanChunks token (bef ++ [c]) none (l ++ '\n' :: rest) from by
                simp [scanChunks, hbs, hc]]
            rw [ih hl]
            by_cases hbl : '\\' ∈ l
            · have : ('\\' : Char) ∈ c :: l := by simp [hbl]
              simp [hbl, this, beforeLastBS_cons, List.append_assoc]
            · have : ('\\' : Char) ∉ c :: l := by
                simp [List.mem_cons, hbl]
                intro h; exact hbs h.symm
              simp [hbl, this, List.append_assoc]
        | some a =>
            rw [show scanChunks token bef (some a) ((c :: l) ++ '\n' :: rest) =
              scanChunks token bef (some (a ++ [c])) (l ++ '\n' :: rest) from by
                simp [scanChunks, hbs, hc]]
            rw [ih hl]
            by_cases hbl : '\\' ∈ l
            · have : ('\\' : Char) ∈ c :: l := by simp [hbl]
              simp [hbl, this, beforeLastBS_cons, List.append_assoc]
            · have : ('\\' : Char) ∉ c :: l := by
                simp [List.mem_cons, hbl]
                intro h; exact hbs h.symm
              simp [hbl, this, List.append_assoc]

/-! ## Computation rules and fuel congruence for the reference scanner -/

theorem refFirstFuel_congr : ∀ (n : Nat) (data : List Char) (fuel fuel' : Nat),
    data.length ≤ n → n < fuel → n < fuel' →
    refFirstFuel fuel data = refFirstFuel fuel' data := by
  intro n
  induction n with
  | zero =>
      intro data fuel fuel' hlen hf hf'
      have hdata : data = [] := List.length_eq_zero.mp (Nat.le_zero.mp hlen)
      subst hdata
      cases fuel with
      | zero => omega
      | succ f =>
          cases fuel' with
          | zero => omega
          | succ f' => simp [refFirstFuel, splitNL]
  | succ m ih =>
      intro data fuel fuel' hlen hf hf'
      cases fuel with
      | zero => omega
      | succ f =>
          cases fuel' with
          | zero => omega
          | succ f' =>
              simp only [refFirstFuel]
              cases hsp : splitNL data with
              | none => rfl
              | some p =>
                  obtain ⟨l, rest⟩ := p
                  obtain ⟨hshape, -⟩ := splitNL_some_shape data l rest hsp
                  have hrest : rest.length ≤ m := by
                    have : data.length = l.length + 1 + rest.length := by
                      rw [hshape]; simp; omega
                    omega
                  by_cases hb : '\\' ∈ l
                  · simp only [hb, if_pos]
                    rw [ih rest f f' hrest (by omega) (by omega)]
                  · simp [hb]

theorem refFirst_of_none (data : List Char) (h : splitNL data = none) :
    refFirst data = (data, []) := by
  simp [refFirst, refFirstFuel, h]

theorem refFirst_of_term (data l rest : List Char)
    (h : splitNL data = some (l, rest)) (hb : '\\' ∉ l) :
    refFirst data = (l, rest) := by
  simp [refFirst, refFirstFuel, h, hb]

theorem refFirst_of_cont (data l rest : List Char)
    (h : splitNL data = some (l, rest)) (hb : '\\' ∈ l) :
    refFirst data =
      (beforeLastBS l ++ (refFirst rest).1, (refFirst rest).2) := by
  obtain ⟨hshape, -⟩ := splitNL_some_shape data l rest h
  have hlt : rest.length < data.length := by
    rw [hshape]; simp; omega
  have hcongr : refFirstFuel data.length rest = refFirstFuel (rest.length + 1) rest :=
    refFirstFuel_congr rest.length rest data.length (rest.length + 1)
      (Nat.le_refl _) hlt (Nat.lt_succ_self _)
  conv_lhs => rw [refFirst]
  simp only [refFirstFuel, h, hb, if_pos]
  rw [hcongr]
  rfl

theorem refFirst_rest_lt_aux : ∀ (n : Nat) (data : List Char),
    data.length ≤ n → data ≠ [] → (refFirst data).2.length < data.length := by
  intro n
  induction n with
  | zero =>
      intro data hlen hne
      exact absurd (List.length_eq_zero.mp (Nat.le_zero.mp hlen)) hne
  | succ m ih =>
      intro data hlen hne
      cases hsp : splitNL data with
      | none =>
          rw [refFirst_of_none data hsp]
          simpa using List.length_pos.mpr hne
      | some p =>
          obtain ⟨l, rest⟩ := p
          obtain ⟨hshape, -⟩ := splitNL_some_shape data l rest hsp
          have hlt : rest.length < data.length := by
            rw [hshape]; simp; omega
          by_cases hb : '\\' ∈ l
          · rw [refFirst_of_cont data l rest hsp hb]
            by_cases hrest : rest = []
            · subst hrest
              rw [refFirst_of_none [] rfl]
              simpa using List.length_pos.mpr hne
            · have hr : rest.length ≤ m := by omega
              exact Nat.lt_trans (ih rest hr hrest) hlt
          · rw [refFirst_of_term data l rest hsp hb]
            exact hlt

/-! ## The scanner computes `refFirst` -/

theorem scanChunks_refFirst : ∀ (n : Nat) (data : List Char),
    data.length ≤ n → ∀ token : List Char,
    scanChunks token [] none data =
      some (token ++ (refFirst data).1, (refFirst data).2) := by
  intro n
  induction n with
  | zero =>
      intro data hlen token
      have hdata : data = [] := List.length_eq_zero.mp (Nat.le_zero.mp hlen)
      subst hdata
      rw [refFirst_of_none [] rfl]
      simp [scanChunks]
  | succ m ih =>
      intro data hlen token
      cases hsp : splitNL data with
      | none =>
          have hnl : '\n' ∉ data := splitNL_none_no_nl data hsp
          rw [refFirst_of_none data hsp, scanChunks_eof data hnl token [] none]
          simp
      | some p =>
          obtain ⟨l, rest⟩ := p
          obtain ⟨hshape, hnl⟩ := splitNL_some_shape data l rest hsp
          have hrest : rest.length ≤ m := by
            have : data.length = l.length + 1 + rest.length := by
              rw [hshape]; simp; omega
            omega
          by_cases hb : '\\' ∈ l
          · rw [refFirst_of_cont data l rest hsp hb]
            rw [hshape, scanChunks_line l hnl token [] none rest]
            rw [if_neg (by simp [hb])]
            have ht := ih rest hrest (token ++ beforeLastBS l)
            simp only [hb, if_true, Option.getD_none, List.nil_append,
              List.append_nil]
            rw [ht]
            simp [List.append_assoc]
          · rw [refFirst_of_term data l rest hsp hb]
            rw [hshape, scanChunks_line l hnl token [] none rest]
            simp [hb]

theorem scanLogicalLines_refFirst (data : List Char) (hne : data ≠ []) :
    scanLogicalLines data = some (refFirst data) := by
  cases data with
  | nil => exact absurd rfl hne
  | cons c d =>
      have : scanLogicalLines (c :: d) = scanChunks [] [] none (c :: d) := rfl
      rw [this, scanChunks_refFirst (c :: d).length (c :: d) (Nat.le_refl _) []]
      simp

/-! ## Fuel congruence for the token loops -/

theorem logicalLinesFuel_congr : ∀ (n : Nat) (data : List Char) (fuel fuel' : Nat),
    data.length ≤ n → n < fuel → n < fuel' →
    logicalLinesFuel fuel data = logicalLinesFuel fuel' data := by
  intro n
  induction n with
  | zero =>
      intro data fuel fuel' hlen hf hf'
      have hdata : data = [] := List.length_eq_zero.mp (Nat.le_zero.mp hlen)
      subst hdata
      cases fuel with
      | zero => omega
      | succ f =>
          cases fuel' with
          | zero => omega
          | succ f' => simp [logicalLinesFuel, scanLogicalLines]
  | succ m ih =>
      intro data fuel fuel' hlen hf hf'
      cases fuel with
      | zero => omega
      | succ f =>
          cases fuel' with
          | zero => omega
          | succ f' =>
              by_cases hne : data = []
              · subst hne; simp [logicalLinesFuel, scanLogicalLines]
              · have hsc := scanLogicalLines_refFirst data hne
                have hlt : (refFirst data).2.length < data.length :=
                  refFirst_rest_lt_aux data.length data (Nat.le_refl _) hne
                simp only [logicalLinesFuel, hsc]
                rw [ih (refFirst data).2 f f' (by omega) (by omega) (by omega)]

theorem refTokensFuel_congr : ∀ (n : Nat) (data : List Char) (fuel fuel' : Nat),
    data.length ≤ n → n < fuel → n < fuel' →
    refTokensFuel fuel data = refTokensFuel fuel' data := by
  intro n
  induction n with
  | zero =>
      intro data fuel fuel' hlen hf hf'
      have hdata : data = [] := List.length_eq_zero.mp (Nat.le_zero.mp hlen)
      subst hdata
      cases fuel with
      | zero => omega
      | succ f =>
          cases fuel' with
          | zero => omega
          | succ f' => simp [refTokensFuel]
  | succ m ih =>
      intro data fuel fuel' hlen hf hf'
      cases fuel with
      | zero => omega
      | succ f =>
          cases fuel' with
          | zero => omega
          | succ f' =>
              cases data with
              | nil => simp [refTokensFuel]
              | cons c d =>
                  have hlt : (refFirst (c :: d)).2.length < (c :: d).length :=
                    refFirst_rest_lt_aux (c :: d).length (c :: d) (Nat.le_refl _)
                      (by simp)
                  simp only [refTokensFuel]
                  rw [ih (refFirst (c :: d)).2 f f'
                    (by simp only [List.length_cons] at hlt hlen; omega)
                    (by omega) (by omega)]

/-! ## The C6 equivalence -/

theorem logicalLines_eq_refTokens_aux : ∀ (n : Nat) (data : List Char),
    data.length ≤ n → logicalLines data = refTokens data := by
  intro n
  induction n with
  | zero =>
      intro data hlen
      have hdata : data = [] := List.length_eq_zero.mp (Nat.le_zero.mp hlen)
      subst hdata
      rfl
  | succ m ih =>
      intro data hlen
      by_cases hne : data = []
      · subst hne; rfl
      · have hsc := scanLogicalLines_refFirst data hne
        have hlt : (refFirst data).2.length < data.length :=
          refFirst_rest_lt_aux data.length data (Nat.le_refl _) hne
        have hrest : (refFirst data).2.length ≤ m := by omega
        have left : logicalLines data =
            (refFirst data).1 :: logicalLinesFuel data.length (refFirst data).2 := by
          rw [logicalLines]
          simp only [logicalLinesFuel, hsc]
        have lcongr : logicalLinesFuel data.length (refFirst data).2 =
            logicalLines (refFirst data).2 := by
          rw [logicalLines]
          exact logicalLinesFuel_congr (refFirst data).2.length (refFirst data).2
            data.length ((refFirst data).2.length + 1) (Nat.le_refl _) hlt
            (Nat.lt_succ_self _)
        have right : refTokens data =
            (refFirst data).1 :: refTokensFuel data.length (refFirst data).2 := by
          rw [refTokens]
          cases data with
          | nil => exact absurd rfl hne
          | cons c d => simp only [refTokensFuel]
        have rcongr : refTokensFuel data.length (refFirst data).2 =
            refTokens (refFirst data).2 := by
          rw [refTokens]
          exact refTokensFuel_congr (refFirst data).2.length (refFirst data).2
            data.length ((refFirst data).2.length + 1) (Nat.le_refl _) hlt
            (Nat.lt_succ_self _)
        rw [left, lcongr, right, rcongr, ih (refFirst data).2 hrest]

/-- C6 counterexample: on `"a\\b\nc\n"` the code scanner treats the first
newline as a continuation although it is not immediately preceded by a
backslash (the backslash sits earlier in the physical line), and it also
drops the byte between the backslash and the newline, yielding the single
token `"ac"` where the claim's joining rule yields `"a\\b"` then `"c"`. -/
theorem scanner_counterexample_any_backslash :
    logicalLines ("a\\b\nc\n".toList) = ["ac".toList]
    ∧ claimTokens ("a\\b\nc\n".toList) = ["a\\b".toList, "c".toList]
    ∧ logicalLines ("a\\b\nc\n".toList) ≠ claimTokens ("a\\b\nc\n".toList) := by
  exact ⟨by decide, by decide, by decide⟩

/-- C6 (amended): the scanner produces logical lines by joining a physical
line into the next whenever the line contains at least one backslash
anywhere (retaining only the bytes strictly before the last backslash and
dropping from that backslash through the newline), ending a token at the
first physical newline whose line contains no backslash, and emitting the
whole remaining tail (backslashes included) at end of input; in
particular `"foo \\\n= bar"` and `"foo = bar"` both scan to the single
identical logical line `"foo = bar"`. -/
theorem scanner_joins_on_any_backslash :
    (∀ data : List Char, logicalLines data = refTokens data)
    ∧ logicalLines ("foo \\\n= bar".toList) = ["foo = bar".toList]
    ∧ logicalLines ("foo = bar".toList) = ["foo = bar".toList] := by
  refine ⟨fun data => logicalLines_eq_refTokens_aux data.length data (Nat.le_refl _),
    by decide, by decide⟩

/-! ## `Config.Write` and `Config.Read`

`Write` iterates the section map (association-list order).  For each
section it emits two newlines, then every document-level header line via
`Fprintf("# %s", line)` — note: with no trailing newline, exactly as the
source does — then `[name]\n`, then each option as
`Fprintln(opt, "=", val)`, i.e. `opt = val\n`. -/

def writeSection (hdr : List String) (name : String) (sec : CnfSection) :
    List Char :=
  "\n\n".toList
    ++ (hdr.map (fun l => "# ".toList ++ l.toList)).flatten
    ++ '[' :: name.toList ++ "]\n".toList
    ++ (sec.options.map (fun p => p.1.toList ++ " = ".toList ++ p.2.toList ++ ['\n'])).flatten

def Config.Write (cnf : Config) : List Char :=
  (cnf.Section.map (fun p => writeSection cnf.Header p.1 p.2)).flatten

/-- `Read`'s state: the configuration being built, the name of the
current section (`section` in the source; initially `""`), and the
pending header-comment lines. -/
structure ReadSt where
  cnf : Config
  sectionName : String
  headerLines : List String
deriving DecidableEq, Repr

/-- `Read` calls `AddSection` and discards both results (a present
section stays as it is). -/
def addSectionIgnoringErr (cnf : Config) (name : String) : Config :=
  match cnf.AddSection name with
  | .ok (cnf', _) => cnf'
  | .error _ => cnf

/-- `newCnf.Section[section].Header = headerLines` (the entry exists on
this path, since `Read` only does this right after `AddSection`). -/
def setSectionHeader (cnf : Config) (name : String) (hdr : List String) :
    Config :=
  { cnf with
    Section := cnf.Section.map
      (fun p => if p.1 = name then (p.1, { p.2 with Header := hdr }) else p) }

/-- `newCnf.Section[section].SetString(option, value)`. -/
def setOptionInSection (cnf : Config) (name opt val : String) : Config :=
  { cnf with
    Section := cnf.Section.map
      (fun p => if p.1 = name then (p.1, p.2.SetString opt val) else p) }

/-- One iteration of `Read`'s scan loop.  The three `.error` results are
the three Go panics on this code path: the explicit
`panic("File inclusions not handled yet")`, the slice-bounds panic from
`line[:i]` with `i = -1`, and the nil dereference from
`newCnf.Section[section].SetString(...)` when the current section is not
in the map. -/
def processLine (st : ReadSt) (source : List Char) : Except String ReadSt :=
  if trimSpace source = [] then .ok { st with headerLines := [] }
  else if (trimLine source).1 = [] then
    match (trimLine source).2 with
    | some c => .ok { st with headerLines := st.headerLines ++ [String.mk c] }
    | none => .ok st
  else if (trimLine source).1.head? = some '[' ∧
      (trimLine source).1.getLast? = some ']' then
    .ok { cnf := setSectionHeader
            (addSectionIgnoringErr st.cnf
              (String.mk (trimSpace ((trimLine source).1.drop 1).dropLast)))
            (String.mk (trimSpace ((trimLine source).1.drop 1).dropLast))
            st.headerLines,
          sectionName := String.mk (trimSpace ((trimLine source).1.drop 1).dropLast),
          headerLines := [] }
  else if (trimLine source).1.head? = some '!' then
    .error "File inclusions not handled yet"
  else
    match indexAny (trimLine source).1 [':', '='] with
    | none => .error "slice bounds out of range"
    | some i =>
        match assocFind st.cnf.Section st.sectionName with
        | none => .error "nil pointer dereference"
        | some _ =>
            .ok { st with
              cnf := setOptionInSection st.cnf st.sectionName
                (String.mk (trimSpace ((trimLine source).1.take i)))
                (String.mk (trimSpace ((trimLine source).1.drop (i + 1)))) }

def readInit : ReadSt := { cnf := cnfNew, sectionName := "", headerLines := [] }

def runLines (st : ReadSt) : List (List Char) → Except String ReadSt
  | [] => .ok st
  | l :: ls =>
      match processLine st l with
      | .error e => .error e
      | .ok st' => runLines st' ls

/-- The observable outcome of `Config.Read`: the parsed document (the
source swaps it into the receiver and returns `nil`), or a runtime
panic. -/
inductive ReadResult where
  | ok (cnf : Config)
  | panicMsg (msg : String)
deriving DecidableEq, Repr

def readConfig (data : List Char) : ReadResult :=
  match runLines readInit (logicalLines data) with
  | .ok st => .ok st.cnf
  | .error msg => .panicMsg msg

/-! ## Whitespace lemmas used to discharge `Read`'s guard conditions -/

theorem trimSpace_nil_of_all (l : List Char) (h : ∀ c ∈ l, isSpaceB c) :
    trimSpace l = [] := by
  have h1 : l.dropWhile isSpaceB = [] := by
    rw [List.dropWhile_eq_nil_iff]
    exact h
  simp [trimSpace, h1]

theorem all_space_of_trimSpace_nil (l : List Char) (h : trimSpace l = []) :
    ∀ c ∈ l, isSpaceB c := by
  unfold trimSpace at h
  have h2 : (l.dropWhile isSpaceB).reverse.dropWhile isSpaceB = [] := by
    have h3 := congrArg List.reverse h
    simpa using h3
  have h3 : ∀ c ∈ (l.dropWhile isSpaceB).reverse, isSpaceB c := by
    rw [List.dropWhile_eq_nil_iff] at h2
    exact h2
  have h4 : ∀ c ∈ l.dropWhile isSpaceB, isSpaceB c := by
    intro c hc
    exact h3 c (by simpa using hc)
  intro c hc
  rw [← List.takeWhile_append_dropWhile (p := isSpaceB) (l := l)] at hc
  rcases List.mem_append.mp hc with h5 | h5
  · exact List.mem_takeWhile_imp h5
  · exact h4 c h5

theorem trimLine_fst_nil_of_all (src : List Char)
    (hsp : ∀ c ∈ src, isSpaceB c) : (trimLine src).1 = [] := by
  cases hidx : indexAny src [';', '#'] with
  | none =>
      have h : trimLine src = (trimSpace src, none) := by simp [trimLine, hidx]
      rw [h]
      exact trimSpace_nil_of_all src hsp
  | some pos =>
      have h : trimLine src =
          (trimSpace (src.take pos), some (trimSpace (src.drop (pos + 1)))) := by
        simp [trimLine, hidx]
      rw [h]
      exact trimSpace_nil_of_all _ (fun c hc => hsp c (List.take_subset _ _ hc))

theorem trimSpace_ne_nil_of_line (src : List Char)
    (h : (trimLine src).1 ≠ []) : trimSpace src ≠ [] := by
  intro hall
  exact h (trimLine_fst_nil_of_all src (all_space_of_trimSpace_nil src hall))

/-! ## Outcome analysis of `processLine` and `runLines` -/

theorem processLine_outcomes (st : ReadSt) (src : List Char) :
    (∃ st', processLine st src = .ok st')
    ∨ processLine st src = .error "File inclusions not handled yet"
    ∨ processLine st src = .error "slice bounds out of range"
    ∨ processLine st src = .error "nil pointer dereference" := by
  unfold processLine
  by_cases h1 : trimSpace src = []
  · rw [if_pos h1]; exact Or.inl ⟨_, rfl⟩
  · rw [if_neg h1]
    by_cases h2 : (trimLine src).1 = []
    · rw [if_pos h2]
      cases hc2 : (trimLine src).2 with
      | some c => exact Or.inl ⟨_, rfl⟩
      | none => exact Or.inl ⟨_, rfl⟩
    · rw [if_neg h2]
      by_cases h3 : ((trimLine src).1.head? = some '[' ∧
          (trimLine src).1.getLast? = some ']')
      · rw [if_pos h3]; exact Or.inl ⟨_, rfl⟩
      · rw [if_neg h3]
        by_cases h4 : (trimLine src).1.head? = some '!'
        · rw [if_pos h4]; exact Or.inr (Or.inl rfl)
        · rw [if_neg h4]
          cases h5 : indexAny (trimLine src).1 [':', '='] with
          | none => exact Or.inr (Or.inr (Or.inl rfl))
          | some i =>
              cases h6 : assocFind st.cnf.Section st.sectionName with
              | none => exact Or.inr (Or.inr (Or.inr rfl))
              | some _ => exact Or.inl ⟨_, rfl⟩

theorem runLines_outcomes : ∀ (ls : List (List Char)) (st : ReadSt),
    (∃ st', runLines st ls = .ok st')
    ∨ runLines st ls = .error "File inclusions not handled yet"
    ∨ runLines st ls = .error "slice bounds out of range"
    ∨ runLines st ls = .error "nil pointer dereference" := by
  intro ls
  induction ls with
  | nil => intro st; exact Or.inl ⟨st, rfl⟩
  | cons l ls ih =>
      intro st
      rcases processLine_outcomes st l with ⟨st', hok⟩ | h | h | h
      · rw [show runLines st (l :: ls) = runLines st' ls from by
          rw [runLines, hok]]
        exact ih st'
      · exact Or.inr (Or.inl (by rw [runLines, h]))
      · exact Or.inr (Or.inr (Or.inl (by rw [runLines, h])))
      · exact Or.inr (Or.inr (Or.inr (by rw [runLines, h])))

/-- C10: `Read` is not total: a logical line whose trimmed content begins
with `'!'` hits the explicit inclusion panic; a non-empty, non-comment,
non-section trimmed line with neither `':'` nor `'='` hits the
out-of-range slice panic from `line[:i]` with `i = -1`; an option line
processed while the current section name (initially `""`) is absent from
the section map hits the nil-dereference panic of
`newCnf.Section[section].SetString`; and on every input `Read` either
panics in one of exactly these three ways or succeeds returning `nil`
(it never returns an error, and never checks the scanner's error). -/
theorem read_panics_and_never_errors :
    (∀ (st : ReadSt) (src : List Char),
      (trimLine src).1.head? = some '!' →
      processLine st src = .error "File inclusions not handled yet")
    ∧ (∀ (st : ReadSt) (src : List Char),
        (trimLine src).1 ≠ [] →
        ¬((trimLine src).1.head? = some '[' ∧
          (trimLine src).1.getLast? = some ']') →
        (trimLine src).1.head? ≠ some '!' →
        (∀ c ∈ (trimLine src).1, c ≠ ':' ∧ c ≠ '=') →
        processLine st src = .error "slice bounds out of range")
    ∧ (∀ (st : ReadSt) (src : List Char) (i : Nat),
        ¬((trimLine src).1.head? = some '[' ∧
          (trimLine src).1.getLast? = some ']') →
        (trimLine src).1.head? ≠ some '!' →
        indexAny (trimLine src).1 [':', '='] = some i →
        assocFind st.cnf.Section st.sectionName = none →
        processLine st src = .error "nil pointer dereference")
    ∧ (∀ data : List Char,
        (∃ c, readConfig data = .ok c)
        ∨ readConfig data = .panicMsg "File inclusions not handled yet"
        ∨ readConfig data = .panicMsg "slice bounds out of range"
        ∨ readConfig data = .panicMsg "nil pointer dereference") := by
  refine ⟨?_, ?_, ?_, ?_⟩
  · intro st src h
    have hne : (trimLine src).1 ≠ [] := by
      intro h0; rw [h0] at h; simp at h
    have hts : trimSpace src ≠ [] := trimSpace_ne_nil_of_line src hne
    have hsec : ¬((trimLine src).1.head? = some '[' ∧
        (trimLine src).1.getLast? = some ']') := by
      rintro ⟨h1, -⟩
      rw [h] at h1
      simp at h1
    unfold processLine
    rw [if_neg hts, if_neg hne, if_neg hsec, if_pos h]
  · intro st src hne hsec hbang hnoeq
    have hts : trimSpace src ≠ [] := trimSpace_ne_nil_of_line src hne
    have hidx : indexAny (trimLine src).1 [':', '='] = none := by
      apply indexAny_eq_none
      intro c hc
      rcases hnoeq c hc with ⟨ha, hb⟩
      simp [ha, hb]
    unfold processLine
    rw [if_neg hts, if_neg hne, if_neg hsec, if_neg hbang, hidx]
  · intro st src i hsec hbang hidx hfind
    have hne : (trimLine src).1 ≠ [] := by
      intro h0
      rw [h0] at hidx
      simp [indexAny] at hidx
    have hts : trimSpace src ≠ [] := trimSpace_ne_nil_of_line src hne
    unfold processLine
    rw [if_neg hts, if_neg hne, if_neg hsec, if_neg hbang, hidx, hfind]
  · intro data
    unfold readConfig
    rcases runLines_outcomes (logicalLines data) readInit with ⟨st', h⟩ | h | h | h
    · rw [h]; exact Or.inl ⟨st'.cnf, rfl⟩
    · rw [h]; exact Or.inr (Or.inl rfl)
    · rw [h]; exact Or.inr (Or.inr (Or.inl rfl))
    · rw [h]; exact Or.inr (Or.inr (Or.inr rfl))

/-! ## Scanning newline-terminated, backslash-free lines -/

theorem refTokens_cons (data : List Char) (hne : data ≠ []) :
    refTokens data = (refFirst data).1 :: refTokens (refFirst data).2 := by
  have hlt : (refFirst data).2.length < data.length :=
    refFirst_rest_lt_aux data.length data (Nat.le_refl _) hne
  have step : refTokens data =
      (refFirst data).1 :: refTokensFuel data.length (refFirst data).2 := by
    rw [refTokens]
    cases data with
    | nil => exact absurd rfl hne
    | cons c d => simp only [refTokensFuel]
  rw [step, refTokensFuel_congr (refFirst data).2.length (refFirst data).2
    data.length ((refFirst data).2.length + 1) (Nat.le_refl _) hlt
    (Nat.lt_succ_self _)]
  rfl

theorem splitNL_of_shape (l : List Char) (hnl : '\n' ∉ l) (b : List Char) :
    splitNL (l ++ '\n' :: b) = some (l, b) := by
  induction l with
  | nil => simp [splitNL]
  | cons c d ih =>
      have hc : ¬c = '\n' := fun h => hnl (by simp [h])
      have hd : '\n' ∉ d := fun h => hnl (by simp [h])
      simp [splitNL, hc, ih hd]

theorem refTokens_of_lines : ∀ ls : List (List Char),
    (∀ l ∈ ls, '\n' ∉ l ∧ '\\' ∉ l) →
    refTokens ((ls.map (fun l => l ++ ['\n'])).flatten) = ls := by
  intro ls
  induction ls with
  | nil => intro _; rfl
  | cons l ls ih =>
      intro h
      obtain ⟨hnl, hbs⟩ := h l (by simp)
      have hrest : ∀ x ∈ ls, '\n' ∉ x ∧ '\\' ∉ x :=
        fun x hx => h x (by simp [hx])
      have hshape : ((l :: ls).map (fun l => l ++ ['\n'])).flatten =
          l ++ '\n' :: ((ls.map (fun l => l ++ ['\n'])).flatten) := by
        simp
      rw [hshape]
      have hne : l ++ '\n' :: ((ls.map (fun l => l ++ ['\n'])).flatten) ≠ [] := by
        simp
      have hsp := splitNL_of_shape l hnl ((ls.map (fun l => l ++ ['\n'])).flatten)
      rw [refTokens_cons _ hne,
        refFirst_of_term _ l ((ls.map (fun l => l ++ ['\n'])).flatten) hsp hbs]
      rw [ih hrest]

theorem logicalLines_of_lines (ls : List (List Char))
    (h : ∀ l ∈ ls, '\n' ∉ l ∧ '\\' ∉ l) :
    logicalLines ((ls.map (fun l => l ++ ['\n'])).flatten) = ls := by
  rw [logicalLines_eq_refTokens_aux ((ls.map (fun l => l ++ ['\n'])).flatten).length
    _ (Nat.le_refl _)]
  exact refTokens_of_lines ls h

/-! ## Trimming well-behaved (already-trimmed) text -/

def edgeNotSpace (l : List Char) : Bool :=
  (match l.head? with | some c => !(isSpaceB c) | none => true)
    && (match l.getLast? with | some c => !(isSpaceB c) | none => true)

theorem edge_head (l : List Char) (h : edgeNotSpace l = true) :
    ∀ c, l.head? = some c → isSpaceB c = false := by
  intro c hc
  unfold edgeNotSpace at h
  rw [hc] at h
  simp at h
  simp [h.1]

theorem edge_last (l : List Char) (h : edgeNotSpace l = true) :
    ∀ c, l.getLast? = some c → isSpaceB c = false := by
  intro c hc
  unfold edgeNotSpace at h
  rw [hc] at h
  simp at h
  simp [h.2]

theorem dropWhile_eq_self_of_head (l : List Char)
    (h : ∀ c, l.head? = some c → isSpaceB c = false) :
    l.dropWhile isSpaceB = l := by
  cases l with
  | nil => rfl
  | cons c d =>
      rw [List.dropWhile_cons, h c rfl]
      simp

theorem trimSpace_eq_self (l : List Char) (h : edgeNotSpace l = true) :
    trimSpace l = l := by
  unfold trimSpace
  rw [dropWhile_eq_self_of_head l (edge_head l h)]
  rw [dropWhile_eq_self_of_head l.reverse (by
    intro c hc
    rw [List.head?_reverse] at hc
    exact edge_last l h c hc)]
  exact List.reverse_reverse l

theorem trimSpace_append_space (l : List Char) (h : edgeNotSpace l = true) :
    trimSpace (l ++ [' ']) = l := by
  cases l with
  | nil => decide
  | cons c d =>
      unfold trimSpace
      rw [dropWhile_eq_self_of_head ((c :: d) ++ [' ']) (by
        intro x hx
        simp at hx
        rw [← hx]
        exact edge_head (c :: d) h c rfl)]
      rw [show ((c :: d) ++ [' ']).reverse = ' ' :: (c :: d).reverse by simp]
      rw [List.dropWhile_cons]
      rw [show isSpaceB ' ' = true from rfl]
      simp only [if_true]
      rw [dropWhile_eq_self_of_head (c :: d).reverse (by
        intro x hx
        rw [List.head?_reverse] at hx
        exact edge_last (c :: d) h x hx)]
      exact List.reverse_reverse _

theorem trimSpace_cons_space (l : List Char) (h : edgeNotSpace l = true) :
    trimSpace (' ' :: l) = l := by
  unfold trimSpace
  rw [List.dropWhile_cons]
  rw [show isSpaceB ' ' = true from rfl]
  simp only [if_true]
  rw [dropWhile_eq_self_of_head l (edge_head l h)]
  rw [dropWhile_eq_self_of_head l.reverse (by
    intro c hc
    rw [List.head?_reverse] at hc
    exact edge_last l h c hc)]
  exact List.reverse_reverse l

/-! ## Association-list lemmas -/

theorem assocFind_append {α : Type} (a b : List (String × α)) (k : String) :
    assocFind (a ++ b) k =
      match assocFind a k with
      | some v => some v
      | none => assocFind b k := by
  induction a with
  | nil => rfl
  | cons p rest ih =>
      by_cases hp : p.1 = k
      · simp [assocFind, hp]
      · simp only [List.cons_append]
        rw [show assocFind (p :: (rest ++ b)) k = assocFind (rest ++ b) k from by
          obtain ⟨k', v'⟩ := p
          simp_all [assocFind]]
        rw [show assocFind (p :: rest) k = assocFind rest k from by
          obtain ⟨k', v'⟩ := p
          simp_all [assocFind]]
        exact ih

theorem assocFind_none_iff {α : Type} (l : List (String × α)) (k : String) :
    assocFind l k = none ↔ ∀ p ∈ l, p.1 ≠ k := by
  induction l with
  | nil => simp [assocFind]
  | cons p rest ih =>
      obtain ⟨k', v'⟩ := p
      by_cases hp : k' = k
      · simp [assocFind, hp]
      · simp [assocFind, hp, ih]

theorem assocSet_append_fresh {α : Type} (l : List (String × α)) (k : String)
    (v : α) (h : assocFind l k = none) : assocSet l k v = l ++ [(k, v)] := by
  induction l with
  | nil => rfl
  | cons p rest ih =>
      obtain ⟨k', v'⟩ := p
      have hp : k' ≠ k := by
        intro hk
        simp [assocFind, hk] at h
      have hr : assocFind rest k = none := by
        simpa [assocFind, hp] using h
      simp [assocSet, hp, ih hr]

theorem map_secHeader_of_keys_ne (l : List (String × CnfSection)) (n : String)
    (hdr : List String) (h : ∀ p ∈ l, p.1 ≠ n) :
    l.map (fun p => if p.1 = n then (p.1, { p.2 with Header := hdr }) else p) = l := by
  induction l with
  | nil => rfl
  | cons p rest ih =>
      have hp : p.1 ≠ n := h p (by simp)
      have hr : ∀ q ∈ rest, q.1 ≠ n := fun q hq => h q (by simp [hq])
      simp [hp, ih hr]

theorem map_setOpt_of_keys_ne (l : List (String × CnfSection)) (n : String)
    (o v : String) (h : ∀ p ∈ l, p.1 ≠ n) :
    l.map (fun p => if p.1 = n then (p.1, p.2.SetString o v) else p) = l := by
  induction l with
  | nil => rfl
  | cons p rest ih =>
      have hp : p.1 ≠ n := h p (by simp)
      have hr : ∀ q ∈ rest, q.1 ≠ n := fun q hq => h q (by simp [hq])
      simp [hp, ih hr]

/-! ## Clean documents: the amended round-trip hypothesis

`Write` emits `opt = val` lines, joined header-less sections, and no
escaping whatsoever, so the round trip can only reproduce text that does
not collide with the parser's markers: no comment markers, newlines or
backslashes anywhere; names/options/values already trimmed; option names
free of `':'`/`'='` and not starting like a section or inclusion line;
unique keys (Go maps guarantee this).  The document-level header must be
empty: `Write` emits header lines with no trailing newline, gluing them
to the section header (see the C1 counterexample). -/

def cleanText (l : List Char) : Prop :=
  ∀ c ∈ l, c ≠ ';' ∧ c ≠ '#' ∧ c ≠ '\n' ∧ c ≠ '\\'

def cleanName (s : String) : Prop :=
  cleanText s.toList ∧ edgeNotSpace s.toList = true

def cleanOpt (s : String) : Prop :=
  cleanName s ∧ (∀ c ∈ s.toList, c ≠ ':' ∧ c ≠ '=') ∧
    s.toList.head? ≠ some '[' ∧ s.toList.head? ≠ some '!'

def cleanVal (s : String) : Prop :=
  cleanText s.toList ∧ edgeNotSpace s.toList = true

def cleanSection (p : String × CnfSection) : Prop :=
  cleanName p.1 ∧ (∀ q ∈ p.2.options, cleanOpt q.1 ∧ cleanVal q.2) ∧
    (p.2.options.map Prod.fst).Nodup

def cleanConfig (cnf : Config) : Prop :=
  cnf.Header = [] ∧ (∀ p ∈ cnf.Section, cleanSection p) ∧
    (cnf.Section.map Prod.fst).Nodup

instance cleanTextDec (l : List Char) : Decidable (cleanText l) := by
  unfold cleanText; infer_instance

instance cleanNameDec (s : String) : Decidable (cleanName s) := by
  unfold cleanName; infer_instance

instance cleanOptDec (s : String) : Decidable (cleanOpt s) := by
  unfold cleanOpt; infer_instance

instance cleanValDec (s : String) : Decidable (cleanVal s) := by
  unfold cleanVal; infer_instance

instance cleanSectionDec (p : String × CnfSection) : Decidable (cleanSection p) := by
  unfold cleanSection; infer_instance

instance cleanConfigDec (cnf : Config) : Decidable (cleanConfig cnf) := by
  unfold cleanConfig; infer_instance

/-- Parsing rebuilds strings from their character lists. -/
theorem strMk_toList (s : String) : String.mk s.toList = s := by
  cases s
  rfl

/-- Scrubbing a document: what the round trip provably preserves — every
(section, option, value) triple — with all header comments dropped. -/
def scrub (cnf : Config) : Config :=
  { Header := [],
    Section := cnf.Section.map (fun p => (p.1, { Header := [], options := p.2.options })) }

/-! ## Per-line behaviour of `processLine` on `Write` output -/

theorem processLine_empty (st : ReadSt) :
    processLine st [] = .ok { st with headerLines := [] } := by
  unfold processLine
  rw [if_pos (show trimSpace [] = [] from rfl)]

theorem processLine_section (st : ReadSt) (n : String) (hn : cleanName n)
    (hfresh : assocFind st.cnf.Section n = none) :
    processLine st ('[' :: n.toList ++ [']']) =
      .ok { cnf := { st.cnf with
              Section := st.cnf.Section ++
                [(n, { Header := st.headerLines, options := [] })] },
            sectionName := n, headerLines := [] } := by
  obtain ⟨hclean, hedge⟩ := hn
  have hshape : '[' :: n.toList ++ [']'] = ('[' :: n.toList) ++ [']'] := by simp
  have hlast : ('[' :: n.toList ++ [']']).getLast? = some ']' := by
    rw [hshape]
    exact List.getLast?_concat _
  have hhead : ('[' :: n.toList ++ [']']).head? = some '[' := rfl
  have hedge2 : edgeNotSpace ('[' :: n.toList ++ [']']) = true := by
    unfold edgeNotSpace
    rw [hhead, hlast]
    decide
  have hmarkers : indexAny ('[' :: n.toList ++ [']']) [';', '#'] = none := by
    apply indexAny_eq_none
    intro c hc
    simp at hc
    rcases hc with rfl | hc | rfl
    · decide
    · rcases hclean c hc with ⟨h1, h2, -, -⟩
      simp [h1, h2]
    · decide
  have htrim : trimSpace ('[' :: n.toList ++ [']']) = '[' :: n.toList ++ [']'] :=
    trimSpace_eq_self _ hedge2
  have htl : trimLine ('[' :: n.toList ++ [']']) = ('[' :: n.toList ++ [']'], none) := by
    unfold trimLine
    rw [hmarkers, htrim]
  have hts : trimSpace ('[' :: n.toList ++ [']']) ≠ [] := by
    rw [htrim]; simp
  have hkeys : ∀ p ∈ st.cnf.Section, p.1 ≠ n := (assocFind_none_iff _ _).mp hfresh
  have hadd : addSectionIgnoringErr st.cnf n =
      { st.cnf with Section := st.cnf.Section ++ [(n, { Header := [], options := [] })] } := by
    unfold addSectionIgnoringErr Config.AddSection
    rw [hfresh]
  have hname : String.mk (trimSpace ((('[' :: n.toList ++ [']']).drop 1).dropLast)) = n := by
    rw [show ('[' :: n.toList ++ [']']).drop 1 = n.toList ++ [']'] from rfl]
    rw [List.dropLast_concat]
    rw [trimSpace_eq_self _ hedge]
    exact strMk_toList n
  unfold processLine
  rw [htl, if_neg hts]
  simp only []
  rw [if_neg (show ¬('[' :: n.toList ++ [']']) = [] by simp)]
  rw [if_pos (⟨hhead, hlast⟩ :
    ('[' :: n.toList ++ [']']).head? = some '[' ∧
    ('[' :: n.toList ++ [']']).getLast? = some ']')]
  rw [hname, hadd]
  unfold setSectionHeader
  simp only [List.map_append]
  rw [map_secHeader_of_keys_ne st.cnf.Section n st.headerLines hkeys]
  simp

theorem headQ_append_ne (l1 l2 : List Char) (h : l1 ≠ []) :
    (l1 ++ l2).head? = l1.head? := by
  cases l1 with
  | nil => exact absurd rfl h
  | cons c d => rfl

theorem getLastQ_append_ne (l1 l2 : List Char) (h : l2 ≠ []) :
    (l1 ++ l2).getLast? = l2.getLast? := by
  rw [← List.head?_reverse, ← List.head?_reverse, List.reverse_append]
  exact headQ_append_ne _ _ (by simpa using h)

theorem edgeNotSpace_intro (l : List Char)
    (hh : ∀ c, l.head? = some c → isSpaceB c = false)
    (hl : ∀ c, l.getLast? = some c → isSpaceB c = false) :
    edgeNotSpace l = true := by
  unfold edgeNotSpace
  cases hc : l.head? with
  | none =>
      cases hg : l.getLast? with
      | none => rfl
      | some c => simp [hl c hg]
  | some c =>
      cases hg : l.getLast? with
      | none => simp [hh c hc]
      | some d => simp [hh c hc, hl d hg]

theorem trimSpace_optline (o v : List Char)
    (ho : edgeNotSpace o = true) (hv : edgeNotSpace v = true) :
    trimSpace (o ++ ' ' :: '=' :: ' ' :: v) =
      (if o = [] then [] else o ++ [' ']) ++
        '=' :: (if v = [] then [] else ' ' :: v) := by
  by_cases hov : o = []
  · subst hov
    by_cases hvv : v = []
    · subst hvv; decide
    · rw [if_pos rfl, if_neg hvv]
      simp only [List.nil_append]
      refine trimSpace_cons_space _ (edgeNotSpace_intro _ ?_ ?_)
      · intro c hc
        rw [show ('=' :: ' ' :: v).head? = some '=' from rfl] at hc
        cases hc; decide
      · intro c hc
        rw [show ('=' :: ' ' :: v) = ['=', ' '] ++ v by simp] at hc
        rw [getLastQ_append_ne _ _ hvv] at hc
        exact edge_last v hv c hc
  · by_cases hvv : v = []
    · subst hvv
      rw [if_neg hov, if_pos rfl]
      rw [show (o ++ [' ']) ++ '=' :: ([] : List Char) = o ++ [' ', '='] by simp]
      unfold trimSpace
      rw [dropWhile_eq_self_of_head (o ++ ' ' :: '=' :: ' ' :: []) (by
        intro c hc
        rw [headQ_append_ne _ _ hov] at hc
        exact edge_head o ho c hc)]
      rw [show (o ++ ' ' :: '=' :: ' ' :: []).reverse = ' ' :: '=' :: ' ' :: o.reverse by
        simp]
      rw [List.dropWhile_cons]
      rw [show isSpaceB ' ' = true from rfl]
      simp only [if_true]
      rw [dropWhile_eq_self_of_head ('=' :: ' ' :: o.reverse) (by
        intro c hc
        cases hc; decide)]
      simp
    · rw [if_neg hov, if_neg hvv]
      rw [show (o ++ [' ']) ++ '=' :: ' ' :: v = o ++ ' ' :: '=' :: ' ' :: v by simp]
      refine trimSpace_eq_self _ (edgeNotSpace_intro _ ?_ ?_)
      · intro c hc
        rw [headQ_append_ne _ _ hov] at hc
        exact edge_head o ho c hc
      · intro c hc
        rw [show o ++ ' ' :: '=' :: ' ' :: v = (o ++ [' ', '=', ' ']) ++ v by simp] at hc
        rw [getLastQ_append_ne _ _ hvv] at hc
        exact edge_last v hv c hc

theorem processLine_option (st : ReadSt) (o v : String)
    (ho : cleanOpt o) (hv : cleanVal v)
    (hsec : ∃ s, assocFind st.cnf.Section st.sectionName = some s) :
    processLine st (o.toList ++ ' ' :: '=' :: ' ' :: v.toList) =
      .ok { st with cnf := setOptionInSection st.cnf st.sectionName o v } := by
  obtain ⟨⟨hot, hoe⟩, hoc, hob, hobang⟩ := ho
  obtain ⟨hvt, hve⟩ := hv
  obtain ⟨s, hs⟩ := hsec
  have hmark : indexAny (o.toList ++ ' ' :: '=' :: ' ' :: v.toList) [';', '#'] = none := by
    apply indexAny_eq_none
    intro c hc
    simp at hc
    rcases hc with hc | rfl | rfl | rfl | hc
    · rcases hot c hc with ⟨h1, h2, -, -⟩; simp [h1, h2]
    · decide
    · decide
    · decide
    · rcases hvt c hc with ⟨h1, h2, -, -⟩; simp [h1, h2]
  have hT := trimSpace_optline o.toList v.toList hoe hve
  have htl : trimLine (o.toList ++ ' ' :: '=' :: ' ' :: v.toList) =
      ((if o.toList = [] then [] else o.toList ++ [' ']) ++
        '=' :: (if v.toList = [] then [] else ' ' :: v.toList), none) := by
    unfold trimLine
    rw [hmark, hT]
  have hTne : ((if o.toList = [] then [] else o.toList ++ [' ']) ++
      '=' :: (if v.toList = [] then [] else ' ' :: v.toList)) ≠ [] := by
    intro h
    rw [List.append_eq_nil] at h
    exact absurd h.2 (by simp)
  have hts : trimSpace (o.toList ++ ' ' :: '=' :: ' ' :: v.toList) ≠ [] := by
    rw [hT]; exact hTne
  have hheadT : ∀ c, ((if o.toList = [] then [] else o.toList ++ [' ']) ++
      '=' :: (if v.toList = [] then [] else ' ' :: v.toList)).head? = some c →
      c ≠ '[' ∧ c ≠ '!' := by
    intro c hc
    by_cases hov : o.toList = []
    · rw [if_pos hov] at hc
      simp at hc
      rw [← hc]
      exact ⟨by decide, by decide⟩
    · rw [if_neg hov] at hc
      rw [headQ_append_ne _ _ (by simp [hov])] at hc
      rw [headQ_append_ne _ _ hov] at hc
      constructor
      · intro h; rw [h] at hc; exact hob hc
      · intro h; rw [h] at hc; exact hobang hc
  have hsecshape : ¬(((if o.toList = [] then [] else o.toList ++ [' ']) ++
      '=' :: (if v.toList = [] then [] else ' ' :: v.toList)).head? = some '[' ∧
      ((if o.toList = [] then [] else o.toList ++ [' ']) ++
      '=' :: (if v.toList = [] then [] else ' ' :: v.toList)).getLast? = some ']') := by
    rintro ⟨h1, -⟩
    exact (hheadT '[' h1).1 rfl
  have hbang : ((if o.toList = [] then [] else o.toList ++ [' ']) ++
      '=' :: (if v.toList = [] then [] else ' ' :: v.toList)).head? ≠ some '!' :=
    fun h => (hheadT '!' h).2 rfl
  have hidx : indexAny ((if o.toList = [] then [] else o.toList ++ [' ']) ++
      '=' :: (if v.toList = [] then [] else ' ' :: v.toList)) [':', '='] =
      some (if o.toList = [] then [] else o.toList ++ [' ']).length := by
    apply indexAny_append_first
    · simp
    · intro x hx
      by_cases hov : o.toList = []
      · rw [if_pos hov] at hx; simp at hx
      · rw [if_neg hov] at hx
        simp at hx
        rcases hx with hx | rfl
        · rcases hoc x hx with ⟨h1, h2⟩; simp [h1, h2]
        · decide
  have htake : ((if o.toList = [] then [] else o.toList ++ [' ']) ++
      '=' :: (if v.toList = [] then [] else ' ' :: v.toList)).take
        (if o.toList = [] then [] else o.toList ++ [' ']).length =
      (if o.toList = [] then [] else o.toList ++ [' ']) := List.take_left _ _
  have htakeTrim : trimSpace (if o.toList = [] then [] else o.toList ++ [' ']) =
      o.toList := by
    by_cases hov : o.toList = []
    · rw [if_pos hov, hov]; rfl
    · rw [if_neg hov]; exact trimSpace_append_space _ hoe
  have hdropT : ((if o.toList = [] then [] else o.toList ++ [' ']) ++
      '=' :: (if v.toList = [] then [] else ' ' :: v.toList)).drop
        ((if o.toList = [] then [] else o.toList ++ [' ']).length + 1) =
      (if v.toList = [] then [] else ' ' :: v.toList) := by
    rw [show (if o.toList = [] then [] else o.toList ++ [' ']) ++
        '=' :: (if v.toList = [] then [] else ' ' :: v.toList) =
        ((if o.toList = [] then [] else o.toList ++ [' ']) ++ ['=']) ++
        (if v.toList = [] then [] else ' ' :: v.toList) by simp]
    rw [show (if o.toList = [] then [] else o.toList ++ [' ']).length + 1 =
        ((if o.toList = [] then [] else o.toList ++ [' ']) ++ ['=']).length by simp]
    exact List.drop_left _ _
  have hdropTrim : trimSpace (if v.toList = [] then [] else ' ' :: v.toList) =
      v.toList := by
    by_cases hvv : v.toList = []
    · rw [if_pos hvv, hvv]; rfl
    · rw [if_neg hvv]; exact trimSpace_cons_space _ hve
  simp only [processLine, htl, if_neg hts, if_neg hTne, if_neg hsecshape,
    if_neg hbang, hidx, hs, htake, hdropT, htakeTrim, hdropTrim, strMk_toList]

theorem runLines_append (st : ReadSt) (a b : List (List Char)) :
    runLines st (a ++ b) =
      match runLines st a with
      | .ok st' => runLines st' b
      | .error e => .error e := by
  induction a generalizing st with
  | nil => simp [runLines]
  | cons l ls ih =>
      simp only [List.cons_append, runLines]
      cases processLine st l with
      | error e => rfl
      | ok st' => exact ih st'

/-- The physical-line contents `Write` emits for one section (with an
empty document header): blank separator, blank separator, the `[name]`
line, then one `opt = val` line per option. -/
def optLineText (q : String × String) : List Char :=
  q.1.toList ++ ' ' :: '=' :: ' ' :: q.2.toList

def blockLineList (n : String) (sec : CnfSection) : List (List Char) :=
  [[], [], '[' :: n.toList ++ [']']] ++ sec.options.map optLineText

theorem runLines_optLines :
    ∀ (opts : List (String × String)) (S0 : List (String × CnfSection)) (n : String)
      (hdr0 : List String) (acc : List (String × String)),
    (∀ p ∈ S0, p.1 ≠ n) →
    (∀ q ∈ opts, cleanOpt q.1 ∧ cleanVal q.2) →
    (∀ q ∈ opts, assocFind acc q.1 = none) →
    (opts.map Prod.fst).Nodup →
    runLines { cnf := { Header := [], Section := S0 ++ [(n, { Header := hdr0, options := acc })] },
               sectionName := n, headerLines := [] }
      (opts.map optLineText) =
    .ok { cnf := { Header := [], Section := S0 ++ [(n, { Header := hdr0, options := acc ++ opts })] },
          sectionName := n, headerLines := [] } := by
  intro opts
  induction opts with
  | nil =>
      intro S0 n hdr0 acc h0 h1 h2 h3
      simp [runLines]
  | cons q rest ih =>
      intro S0 n hdr0 acc h0 h1 h2 h3
      obtain ⟨hq, hv⟩ := h1 q (by simp)
      have hfindS0 : assocFind S0 n = none := (assocFind_none_iff _ _).mpr h0
      have hfind : assocFind (S0 ++ [(n, { Header := hdr0, options := acc })]) n =
          some { Header := hdr0, options := acc } := by
        rw [assocFind_append, hfindS0]
        simp [assocFind]
      have hstep := processLine_option
        { cnf := { Header := [], Section := S0 ++ [(n, { Header := hdr0, options := acc })] },
          sectionName := n, headerLines := [] } q.1 q.2 hq hv ⟨_, hfind⟩
      have hset : setOptionInSection
          { Header := [], Section := S0 ++ [(n, { Header := hdr0, options := acc })] } n q.1 q.2
          = { Header := [], Section := S0 ++ [(n, { Header := hdr0, options := acc ++ [q] })] } := by
        unfold setOptionInSection
        simp only [List.map_append]
        rw [map_setOpt_of_keys_ne S0 n q.1 q.2 h0]
        simp [CnfSection.SetString, assocSet_append_fresh acc q.1 q.2 (h2 q (by simp))]
      rw [show (q :: rest).map optLineText = optLineText q :: rest.map optLineText from rfl]
      simp only [runLines]
      rw [show optLineText q = q.1.toList ++ ' ' :: '=' :: ' ' :: q.2.toList from rfl]
      rw [hstep]
      simp only []
      rw [hset]
      have h2' : ∀ r ∈ rest, assocFind (acc ++ [q]) r.1 = none := by
        intro r hr
        rw [assocFind_append, h2 r (by simp [hr])]
        have hne : q.1 ≠ r.1 := by
          have := h3
          simp only [List.map_cons, List.nodup_cons] at this
          intro heq
          exact this.1 (heq ▸ List.mem_map_of_mem Prod.fst hr)
        simp [assocFind, hne]
      have h3' : (rest.map Prod.fst).Nodup := by
        simp only [List.map_cons, List.nodup_cons] at h3
        exact h3.2
      have hih := ih S0 n hdr0 (acc ++ [q]) h0
        (fun r hr => h1 r (by simp [hr])) h2' h3'
      rw [hih]
      simp

theorem runLines_cons_ok (st st' : ReadSt) (l : List Char) (ls : List (List Char))
    (h : processLine st l = .ok st') : runLines st (l :: ls) = runLines st' ls := by
  simp only [runLines, h]

theorem runLines_block (S0 : List (String × CnfSection)) (n : String) (sec : CnfSection)
    (cur : String) (hdr : List String)
    (hclean : cleanSection (n, sec))
    (hfresh : ∀ p ∈ S0, p.1 ≠ n) :
    runLines { cnf := { Header := [], Section := S0 }, sectionName := cur, headerLines := hdr }
      (blockLineList n sec) =
    .ok { cnf := { Header := [],
                   Section := S0 ++ [(n, { Header := [], options := sec.options })] },
          sectionName := n, headerLines := [] } := by
  obtain ⟨hname, hopts, hnodup⟩ := hclean
  have hfreshFind : assocFind S0 n = none := (assocFind_none_iff _ _).mpr hfresh
  rw [show blockLineList n sec =
    [] :: [] :: ('[' :: n.toList ++ [']']) :: sec.options.map optLineText from by
      simp [blockLineList]]
  rw [runLines_cons_ok _ _ _ _ (processLine_empty _)]
  rw [runLines_cons_ok _ _ _ _ (processLine_empty _)]
  rw [runLines_cons_ok _ _ _ _ (processLine_section _ n hname hfreshFind)]
  have := runLines_optLines sec.options S0 n [] [] hfresh hopts
    (fun q hq => rfl) hnodup
  simp only [List.nil_append] at this
  exact this

theorem runLines_sections :
    ∀ (secs : List (String × CnfSection)) (S0 : List (String × CnfSection))
      (cur : String) (hdr : List String),
    (∀ p ∈ secs, cleanSection p) →
    ((secs.map Prod.fst).Nodup) →
    (∀ s ∈ secs, ∀ p ∈ S0, p.1 ≠ s.1) →
    ∃ cur' hdr',
      runLines { cnf := { Header := [], Section := S0 }, sectionName := cur,
                 headerLines := hdr }
        ((secs.map (fun p => blockLineList p.1 p.2)).flatten) =
      .ok { cnf := { Header := [],
                     Section := S0 ++
                       secs.map (fun p => (p.1, { Header := [], options := p.2.options })) },
            sectionName := cur', headerLines := hdr' } := by
  intro secs
  induction secs with
  | nil =>
      intro S0 cur hdr _ _ _
      exact ⟨cur, hdr, by simp [runLines]⟩
  | cons p rest ih =>
      intro S0 cur hdr h1 h2 h3
      obtain ⟨n, sec⟩ := p
      rw [show (((n, sec) :: rest).map (fun p => blockLineList p.1 p.2)).flatten =
        blockLineList n sec ++ (rest.map (fun p => blockLineList p.1 p.2)).flatten from by
          simp]
      rw [runLines_append]
      rw [runLines_block S0 n sec cur hdr (h1 _ (by simp))
        (fun q hq => h3 (n, sec) (by simp) q hq)]
      simp only [List.map_cons, List.nodup_cons] at h2
      have hih := ih (S0 ++ [(n, { Header := [], options := sec.options })]) n []
        (fun q hq => h1 q (by simp [hq]))
        h2.2
        (by
          intro s hsm q hq
          rcases List.mem_append.mp hq with hq1 | hq2
          · exact h3 s (by simp [hsm]) q hq1
          · rw [show q = (n, ({ Header := [], options := sec.options } : CnfSection))
              from by simpa using hq2]
            intro heq
            apply h2.1
            have heq' : n = s.1 := heq
            rw [heq']
            exact List.mem_map_of_mem Prod.fst hsm)
      obtain ⟨cur', hdr', hrun⟩ := hih
      refine ⟨cur', hdr', ?_⟩
      simp [hrun]

theorem writeSection_lines (n : String) (sec : CnfSection) :
    writeSection [] n sec =
      ((blockLineList n sec).map (fun l => l ++ ['\n'])).flatten := by
  unfold writeSection blockLineList
  simp only [List.map_nil, List.flatten_nil, List.nil_append, List.map_append,
    List.flatten_append, List.map_cons, List.flatten_cons]
  have hopts : (sec.options.map
      (fun p => p.1.toList ++ " = ".toList ++ p.2.toList ++ ['\n'])).flatten =
      ((sec.options.map optLineText).map (fun l => l ++ ['\n'])).flatten := by
    rw [List.map_map]
    congr 1
    apply List.map_congr_left
    intro q hq
    simp [optLineText]
  rw [hopts]
  simp

theorem write_as_lines (cnf : Config) (h : cnf.Header = []) :
    Config.Write cnf =
      (((cnf.Section.map (fun p => blockLineList p.1 p.2)).flatten).map
        (fun l => l ++ ['\n'])).flatten := by
  unfold Config.Write
  rw [h]
  induction cnf.Section with
  | nil => rfl
  | cons p rest ih =>
      simp only [List.map_cons, List.flatten_cons, List.map_append,
        List.flatten_append]
      rw [← ih, writeSection_lines p.1 p.2]

theorem allLines_safe (cnf : Config) (h : cleanConfig cnf) :
    ∀ l ∈ (cnf.Section.map (fun p => blockLineList p.1 p.2)).flatten,
      '\n' ∉ l ∧ '\\' ∉ l := by
  intro l hl
  rw [List.mem_flatten] at hl
  obtain ⟨ls, hls, hlmem⟩ := hl
  rw [List.mem_map] at hls
  obtain ⟨p, hp, rfl⟩ := hls
  obtain ⟨⟨hnt, -⟩, hopts, -⟩ := h.2.1 p hp
  simp only [blockLineList, List.cons_append, List.nil_append, List.mem_cons,
    List.mem_map] at hlmem
  rcases hlmem with rfl | rfl | rfl | ⟨q, hq, rfl⟩
  · simp
  · simp
  · constructor
    · intro hmem
      simp at hmem
      rcases hnt '\n' hmem with ⟨-, -, h2, -⟩
      exact h2 rfl
    · intro hmem
      simp at hmem
      rcases hnt '\\' hmem with ⟨-, -, -, h2⟩
      exact h2 rfl
  · obtain ⟨⟨⟨hoc, -⟩, -, -, -⟩, hvc, -⟩ := hopts q hq
    constructor
    · intro hmem
      simp [optLineText] at hmem
      rcases hmem with h1 | h1
      · rcases hoc '\n' h1 with ⟨-, -, h2, -⟩; exact h2 rfl
      · rcases hvc '\n' h1 with ⟨-, -, h2, -⟩; exact h2 rfl
    · intro hmem
      simp [optLineText] at hmem
      rcases hmem with h1 | h1
      · rcases hoc '\\' h1 with ⟨-, -, -, h2⟩; exact h2 rfl
      · rcases hvc '\\' h1 with ⟨-, -, -, h2⟩; exact h2 rfl

/-- C1 (amended): for every clean document — empty document-level header;
section names, option names and values free of comment markers, newlines
and backslashes and already trimmed; option names additionally free of
`':'`/`'='` and not beginning with `'['` or `'!'`; keys unique (as Go maps
guarantee) — `Write` followed by `Read` reproduces exactly the (section,
option, value) triples, in order; only the header comments are lost.  The
cleanliness proviso is forced by the counterexample: an unclean value
such as `"1;2"` is truncated at the comment marker on re-parse. -/
theorem write_read_roundtrip (cnf : Config) (h : cleanConfig cnf) :
    readConfig (Config.Write cnf) = .ok (scrub cnf) := by
  obtain ⟨hhdr, hsecs, hnodup⟩ := h
  rw [write_as_lines cnf hhdr]
  unfold readConfig
  rw [logicalLines_of_lines _ (allLines_safe cnf ⟨hhdr, hsecs, hnodup⟩)]
  obtain ⟨cur', hdr', hrun⟩ :=
    runLines_sections cnf.Section [] "" [] hsecs hnodup (by simp)
  rw [show readInit = { cnf := { Header := [], Section := [] },
                        sectionName := "", headerLines := [] } from rfl]
  rw [hrun]
  simp [scrub]

/-- A demonstration document for the round-trip witness: two sections,
options with paths and numbers, and a section header comment that the
round trip is allowed to lose. -/
def cnfDemo : Config :=
  { Header := [],
    Section := [("mysqld", { Header := ["generated"],
                             options := [("port", "12000"), ("basedir", "/srv/s1")] }),
                ("client", { Header := [], options := [("user", "root")] })] }

/-- C1 witness: the round trip at a concrete two-section document. -/
theorem write_read_roundtrip_witness :
    readConfig (Config.Write cnfDemo) = .ok (scrub cnfDemo) :=
  write_read_roundtrip cnfDemo (by decide)

/-- C1 counterexample: the value `"1;2"` survives `Write` verbatim but
`Read` splits its line at the first `';'`, so the triple
(mysqld, x, "1;2") comes back as (mysqld, x, "1"): the round trip does
not hold for every document, header fidelity aside. -/
def cnfSemi : Config :=
  { Header := [],
    Section := [("mysqld", { Header := [], options := [("x", "1;2")] })] }

theorem write_read_counterexample :
    Config.Write cnfSemi = "\n\n[mysqld]\nx = 1;2\n".toList
    ∧ readConfig (Config.Write cnfSemi) =
        .ok { Header := [],
              Section := [("mysqld", { Header := [], options := [("x", "1")] })] }
    ∧ ({ Header := [],
         Section := [("mysqld", { Header := [], options := [("x", "1")] })] } : Config)
        ≠ cnfSemi := by
  exact ⟨by decide, by decide, by decide⟩

/-! ## The `stable` package: distributions

`Dist` drops the unexported `stable` back-pointer (represented where
needed by the distribution's name). -/

structure Dist where
  Root : String
  Name : String
  Version : String
  ServerVersion : String
  defaultPort : Int
deriving DecidableEq, Repr

/-- `Stable.newDist`: fresh distribution with the default port 3306. -/
def newDist : Dist :=
  { Root := "", Name := "", Version := "", ServerVersion := "", defaultPort := 3306 }

/-! ## `bufio.Scanner` with the default `ScanLines` split: physical lines
with the trailing `\r` of a `\r\n` pair removed. -/

def linesOfAux : List Char → List Char → List (List Char)
  | cur, [] => [cur]
  | cur, c :: rest =>
      if c = '\n' then
        cur :: (match rest with
                | [] => []
                | _ => linesOfAux [] rest)
      else linesOfAux (cur ++ [c]) rest

def linesOf (data : List Char) : List (List Char) :=
  match data with
  | [] => []
  | _ => linesOfAux [] data

def dropCR (l : List Char) : List Char :=
  if l.getLast? = some '\r' then l.dropLast else l

def goScanLines (data : List Char) : List (List Char) :=
  (linesOf data).map dropCR

/-! ## `Dist.scanVersionFile`

The line pattern is `^#\s*define\s+(\w+)\s+(.*)` (Go regexp: `\s` is
`[\t\n\f\r ]`, `\w` is `[0-9A-Za-z_]`); since `\w`/`\s` are disjoint and
`.*` matches anything, the regexp match is equivalent to this
deterministic parse.  `strconv.ParseInt(s, 10, 0)` accepts an optional
sign and decimal digits within the 64-bit int range. -/

def isSpaceRe (c : Char) : Bool :=
  c = '\t' || c = '\n' || c = formfeed || c = '\r' || c = ' '

def isWordChar (c : Char) : Bool :=
  c.isAlphanum || c = '_'

def parseDefine (l : List Char) : Option (List Char × List Char) :=
  match l with
  | '#' :: r1 =>
      let r2 := r1.dropWhile isSpaceRe
      if "define".toList.isPrefixOf r2 then
        let r3 := r2.drop 6
        match r3 with
        | c :: _ =>
            if isSpaceRe c then
              let r4 := r3.dropWhile isSpaceRe
              let name := r4.takeWhile isWordChar
              if name = [] then none
              else
                let r5 := r4.drop name.length
                match r5 with
                | c2 :: _ =>
                    if isSpaceRe c2 then some (name, r5.dropWhile isSpaceRe)
                    else none
                | [] => none
            else none
        | [] => none
      else none
  | _ => none

def parseGoInt (s : List Char) : Option Int :=
  let sd : Int × List Char :=
    match s with
    | '+' :: r => (1, r)
    | '-' :: r => (-1, r)
    | r => (1, r)
  if sd.2 = [] then none
  else if sd.2.all (fun c => c.isDigit) then
    let n : Nat := sd.2.foldl (fun acc c => acc * 10 + (c.toNat - 48)) 0
    let v : Int := sd.1 * n
    if v < -(2 ^ 63) ∨ v > 2 ^ 63 - 1 then none else some v
  else none

/-- `strings.Trim` with an arbitrary cutset. -/
def trimCutset (l : List Char) (cut : List Char) : List Char :=
  ((l.dropWhile (fun c => cut.contains c)).reverse.dropWhile
    (fun c => cut.contains c)).reverse

def trimQS (l : List Char) : List Char := trimCutset l ['"', ' ']

/-- The scan loop of `Dist.scanVersionFile`: `outerr` starts as
`VersionNotFound` and is cleared when the server-version constant is
seen; a `MYSQL_PORT` value that fails `ParseInt` returns that parse error
immediately. -/
def scanVersionLines : Dist → Option GoError → List (List Char) →
    Dist × Option GoError
  | dt, outerr, [] => (dt, outerr)
  | dt, outerr, l :: ls =>
      match parseDefine l with
      | some (name, value) =>
          if name = "MYSQL_SERVER_VERSION".toList then
            scanVersionLines { dt with Version := String.mk (trimQS value) } none ls
          else if name = "MYSQL_PORT".toList then
            match parseGoInt (trimQS value) with
            | some port => scanVersionLines { dt with defaultPort := port } outerr ls
            | none => (dt, some (.parseIntError (String.mk (trimQS value))))
          else scanVersionLines dt outerr ls
      | none => scanVersionLines dt outerr ls

def scanVersionFile (dt : Dist) (content : List Char) : Dist × Option GoError :=
  scanVersionLines dt (some .versionNotFound) (goScanLines content)

/-- Line classifiers for the C7 statements. -/
def isVersionLineB (l : List Char) : Bool :=
  match parseDefine l with
  | some (name, _) => name = "MYSQL_SERVER_VERSION".toList
  | none => false

def isBadPortLineB (l : List Char) : Bool :=
  match parseDefine l with
  | some (name, value) =>
      name = "MYSQL_PORT".toList && (parseGoInt (trimQS value)).isNone
  | none => false

def isPortLineB (l : List Char) : Bool :=
  match parseDefine l with
  | some (name, _) => name = "MYSQL_PORT".toList
  | none => false

theorem scanVL_append : ∀ (a b : List (List Char)) (dt : Dist) (o : Option GoError),
    (∀ l ∈ a, isBadPortLineB l = false) →
    scanVersionLines dt o (a ++ b) =
      scanVersionLines (scanVersionLines dt o a).1 (scanVersionLines dt o a).2 b := by
  intro a
  induction a with
  | nil => intro b dt o _; rfl
  | cons l a' ih =>
      intro b dt o hbad
      have hl : isBadPortLineB l = false := hbad l (by simp)
      have ha' : ∀ x ∈ a', isBadPortLineB x = false :=
        fun x hx => hbad x (by simp [hx])
      cases hp : parseDefine l with
      | none => simp only [List.cons_append, scanVersionLines, hp]; exact ih b _ _ ha'
      | some p =>
          obtain ⟨name, value⟩ := p
          by_cases hver : name = "MYSQL_SERVER_VERSION".toList
          · simp only [List.cons_append, scanVersionLines, hp, hver, if_pos]
            exact ih b _ _ ha'
          · by_cases hport : name = "MYSQL_PORT".toList
            · have hsome : ∃ n, parseGoInt (trimQS value) = some n := by
                unfold isBadPortLineB at hl
                rw [hp] at hl
                simp [hport] at hl
                exact Option.isSome_iff_exists.mp (by
                  rw [Option.isSome_iff_ne_none]
                  intro hnone
                  rw [hnone] at hl
                  simp at hl)
              obtain ⟨pn, hpn⟩ := hsome
              simp only [List.cons_append, scanVersionLines, hp, hver, hport,
                if_neg hver, if_pos, hpn]
              exact ih b _ _ ha'
            · simp only [List.cons_append, scanVersionLines, hp, if_neg hver,
                if_neg hport]
              exact ih b _ _ ha'

theorem scanVL_preserve : ∀ (ls : List (List Char)) (dt : Dist) (o : Option GoError),
    (∀ l ∈ ls, isBadPortLineB l = false) →
    (∀ l ∈ ls, isVersionLineB l = false) →
    (scanVersionLines dt o ls).2 = o ∧
      (scanVersionLines dt o ls).1.Version = dt.Version := by
  intro ls
  induction ls with
  | nil => intro dt o _ _; exact ⟨rfl, rfl⟩
  | cons l ls' ih =>
      intro dt o hbad hver
      have hl : isBadPortLineB l = false := hbad l (by simp)
      have hlv : isVersionLineB l = false := hver l (by simp)
      have hbad' : ∀ x ∈ ls', isBadPortLineB x = false :=
        fun x hx => hbad x (by simp [hx])
      have hver' : ∀ x ∈ ls', isVersionLineB x = false :=
        fun x hx => hver x (by simp [hx])
      cases hp : parseDefine l with
      | none =>
          simp only [scanVersionLines, hp]
          exact ih dt o hbad' hver'
      | some p =>
          obtain ⟨name, value⟩ := p
          have hnv : ¬name = "MYSQL_SERVER_VERSION".toList := by
            unfold isVersionLineB at hlv
            rw [hp] at hlv
            simpa using hlv
          by_cases hport : name = "MYSQL_PORT".toList
          · have hsome : ∃ n, parseGoInt (trimQS value) = some n := by
              unfold isBadPortLineB at hl
              rw [hp] at hl
              simp [hport] at hl
              exact Option.isSome_iff_exists.mp (by
                rw [Option.isSome_iff_ne_none]
                intro hnone
                rw [hnone] at hl
                simp at hl)
            obtain ⟨pn, hpn⟩ := hsome
            simp only [scanVersionLines, hp, if_neg hnv, hport, if_pos, hpn]
            exact ih _ o hbad' hver'
          · simp only [scanVersionLines, hp, if_neg hnv, if_neg hport]
            exact ih dt o hbad' hver'

theorem scanVL_none_stays : ∀ (ls : List (List Char)) (dt : Dist),
    (∀ l ∈ ls, isBadPortLineB l = false) →
    (scanVersionLines dt none ls).2 = none := by
  intro ls
  induction ls with
  | nil => intro dt _; rfl
  | cons l ls' ih =>
      intro dt hbad
      have hl : isBadPortLineB l = false := hbad l (by simp)
      have hbad' : ∀ x ∈ ls', isBadPortLineB x = false :=
        fun x hx => hbad x (by simp [hx])
      cases hp : parseDefine l with
      | none => simp only [scanVersionLines, hp]; exact ih dt hbad'
      | some p =>
          obtain ⟨name, value⟩ := p
          by_cases hver : name = "MYSQL_SERVER_VERSION".toList
          · simp only [scanVersionLines, hp, hver, if_pos]
            exact ih _ hbad'
          · by_cases hport : name = "MYSQL_PORT".toList
            · have hsome : ∃ n, parseGoInt (trimQS value) = some n := by
                unfold isBadPortLineB at hl
                rw [hp] at hl
                simp [hport] at hl
                exact Option.isSome_iff_exists.mp (by
                  rw [Option.isSome_iff_ne_none]
                  intro hnone
                  rw [hnone] at hl
                  simp at hl)
              obtain ⟨pn, hpn⟩ := hsome
              simp only [scanVersionLines, hp, if_neg hver, hport, if_pos, hpn]
              exact ih _ hbad'
            · simp only [scanVersionLines, hp, if_neg hver, if_neg hport]
              exact ih dt hbad'

theorem scanVL_preserve_port : ∀ (ls : List (List Char)) (dt : Dist)
    (o : Option GoError),
    (∀ l ∈ ls, isPortLineB l = false) →
    (scanVersionLines dt o ls).1.defaultPort = dt.defaultPort := by
  intro ls
  induction ls with
  | nil => intro dt o _; rfl
  | cons l ls' ih =>
      intro dt o hnp
      have hl : isPortLineB l = false := hnp l (by simp)
      have hnp' : ∀ x ∈ ls', isPortLineB x = false :=
        fun x hx => hnp x (by simp [hx])
      cases hp : parseDefine l with
      | none =>
          simp only [scanVersionLines, hp]
          exact ih dt o hnp'
      | some p =>
          obtain ⟨name, value⟩ := p
          have hport : ¬name = "MYSQL_PORT".toList := by
            unfold isPortLineB at hl
            rw [hp] at hl
            simpa using hl
          by_cases hver : name = "MYSQL_SERVER_VERSION".toList
          · simp only [scanVersionLines, hp, hver, if_pos]
            exact ih _ none hnp'
          · simp only [scanVersionLines, hp, if_neg hver, if_neg hport]
            exact ih dt o hnp'

/-- C7 (amended): the version-header scan processes every line and later
`#define`s of the same key overwrite earlier ones (for the version and
the port constant alike: the last matching line determines the stored
value, whatever came before); a well-formed `MYSQL_PORT` line stores its
parsed value in `defaultPort`; in the absence of a malformed
`MYSQL_PORT` line, the scan fails with `VersionNotFound` exactly when no
line defines the server version constant (so a missing port constant
alone is never an error); but a `MYSQL_PORT` line whose value fails
`ParseInt` aborts the scan immediately with that parse error — even when
the version constant is present or would come later — so the failure is
not always `VersionNotFound`. -/
theorem scanVersionFile_behaviour :
    (∀ (dt : Dist) (content : List Char),
      scanVersionFile dt content =
        scanVersionLines dt (some .versionNotFound) (goScanLines content))
    ∧ (∀ (ls : List (List Char)) (dt : Dist),
        (∀ l ∈ ls, isBadPortLineB l = false) →
        ((scanVersionLines dt (some .versionNotFound) ls).2 =
            some .versionNotFound
          ↔ ∀ l ∈ ls, isVersionLineB l = false))
    ∧ (∀ (ls1 : List (List Char)) (l : List Char) (ls2 : List (List Char))
        (dt : Dist) (v : List Char),
        (∀ x ∈ ls1 ++ l :: ls2, isBadPortLineB x = false) →
        parseDefine l = some ("MYSQL_SERVER_VERSION".toList, v) →
        (∀ x ∈ ls2, isVersionLineB x = false) →
        (scanVersionLines dt (some .versionNotFound) (ls1 ++ l :: ls2)).1.Version =
          String.mk (trimQS v))
    ∧ (∀ (ls1 : List (List Char)) (l : List Char) (ls2 : List (List Char))
        (dt : Dist) (o : Option GoError),
        (∀ x ∈ ls1, isBadPortLineB x = false) →
        isBadPortLineB l = true →
        ∃ s, (scanVersionLines dt o (ls1 ++ l :: ls2)).2 =
          some (.parseIntError s))
    ∧ (∀ (ls1 : List (List Char)) (l : List Char) (ls2 : List (List Char))
        (dt : Dist) (v : List Char) (n : Int),
        (∀ x ∈ ls1 ++ l :: ls2, isBadPortLineB x = false) →
        parseDefine l = some ("MYSQL_PORT".toList, v) →
        parseGoInt (trimQS v) = some n →
        (∀ x ∈ ls2, isPortLineB x = false) →
        (scanVersionLines dt (some .versionNotFound)
          (ls1 ++ l :: ls2)).1.defaultPort = n) := by
  refine ⟨fun dt content => rfl, ?_, ?_, ?_, ?_⟩
  · intro ls dt hbad
    constructor
    · intro hres
      by_contra hex
      push_neg at hex
      obtain ⟨l0, hlmem, hlver⟩ := hex
      have hlver2 : isVersionLineB l0 = true := by
        cases h : isVersionLineB l0 with
        | false => exact absurd h hlver
        | true => rfl
      obtain ⟨a, b, hsplit⟩ := List.append_of_mem hlmem
      subst hsplit
      obtain ⟨value, hp⟩ : ∃ value,
          parseDefine l0 = some ("MYSQL_SERVER_VERSION".toList, value) := by
        unfold isVersionLineB at hlver2
        cases hp : parseDefine l0 with
        | none => rw [hp] at hlver2; simp at hlver2
        | some p =>
            obtain ⟨n0, v0⟩ := p
            rw [hp] at hlver2
            simp at hlver2
            exact ⟨v0, by
              rw [hlver2,
                show ("MYSQL_SERVER_VERSION".toList : List Char) =
                  ['M', 'Y', 'S', 'Q', 'L', '_', 'S', 'E', 'R', 'V', 'E', 'R',
                   '_', 'V', 'E', 'R', 'S', 'I', 'O', 'N'] from by decide]⟩
      rw [scanVL_append a (l0 :: b) dt (some .versionNotFound)
        (fun x hx => hbad x (by simp [hx]))] at hres
      have hstep : ∀ (dt' : Dist) (o' : Option GoError),
          scanVersionLines dt' o' (l0 :: b) =
            scanVersionLines { dt' with Version := String.mk (trimQS value) }
              none b := by
        intro dt' o'
        simp [scanVersionLines, hp]
      rw [hstep] at hres
      rw [scanVL_none_stays b _ (fun x hx => hbad x (by simp [hx]))] at hres
      exact absurd hres (by simp)
    · intro hver
      exact (scanVL_preserve ls dt (some .versionNotFound) hbad hver).1
  · intro ls1 l ls2 dt v hbad hp hver2
    rw [scanVL_append ls1 (l :: ls2) dt (some .versionNotFound)
      (fun x hx => hbad x (by simp [hx]))]
    have hstep : ∀ (dt' : Dist) (o' : Option GoError),
        scanVersionLines dt' o' (l :: ls2) =
          scanVersionLines { dt' with Version := String.mk (trimQS v) }
            none ls2 := by
      intro dt' o'
      simp [scanVersionLines, hp]
    rw [hstep]
    have hpres := scanVL_preserve ls2
      { (scanVersionLines dt (some .versionNotFound) ls1).1 with
        Version := String.mk (trimQS v) } none
      (fun x hx => hbad x (by simp [hx])) hver2
    rw [hpres.2]
  · intro ls1 l ls2 dt o hbad hl
    obtain ⟨value, hp, hnone⟩ : ∃ value,
        parseDefine l = some ("MYSQL_PORT".toList, value) ∧
        parseGoInt (trimQS value) = none := by
      unfold isBadPortLineB at hl
      cases hp : parseDefine l with
      | none => rw [hp] at hl; simp at hl
      | some p =>
          obtain ⟨n0, v0⟩ := p
          rw [hp] at hl
          simp at hl
          exact ⟨v0, by
            rw [hl.1,
              show ("MYSQL_PORT".toList : List Char) =
                ['M', 'Y', 'S', 'Q', 'L', '_', 'P', 'O', 'R', 'T'] from by decide],
            hl.2⟩
    refine ⟨String.mk (trimQS value), ?_⟩
    rw [scanVL_append ls1 (l :: ls2) dt o hbad]
    simp [scanVersionLines, hp, hnone]
  · intro ls1 l ls2 dt v n hbad hp hn hnp2
    rw [scanVL_append ls1 (l :: ls2) dt (some .versionNotFound)
      (fun x hx => hbad x (by simp [hx]))]
    have hstep : ∀ (dt' : Dist) (o' : Option GoError),
        scanVersionLines dt' o' (l :: ls2) =
          scanVersionLines { dt' with defaultPort := n } o' ls2 := by
      intro dt' o'
      simp [scanVersionLines, hp, hn]
    rw [hstep]
    have hpres := scanVL_preserve_port ls2
      { (scanVersionLines dt (some .versionNotFound) ls1).1 with
        defaultPort := n }
      (scanVersionLines dt (some .versionNotFound) ls1).2 hnp2
    rw [hpres]

/-- C7 counterexample: an input whose only `#define` is a malformed
`MYSQL_PORT` has no line defining the server version constant, yet the
scan fails with the `ParseInt` error, not `VersionNotFound`. -/
theorem scanVersionFile_counterexample :
    (∀ l ∈ goScanLines ("# define MYSQL_PORT foo\n".toList),
      isVersionLineB l = false)
    ∧ (scanVersionFile newDist ("# define MYSQL_PORT foo\n".toList)).2 =
        some (.parseIntError "foo")
    ∧ some (GoError.parseIntError "foo") ≠ some GoError.versionNotFound := by
  exact ⟨by decide, by decide, by decide⟩

/-! ## `filepath.Match` for the patterns `pathType` uses

The source calls the standard library's `filepath.Match` with the
patterns `*.tar.gz`, `*.tar` and `*.zip`.  The matcher below implements
glob `*` (a run of non-separator characters) and literal characters —
the only features those patterns use — fueled so it computes by
reduction; one unit of fuel is consumed per pattern or name character. -/

def globMatchFuel : Nat → List Char → List Char → Bool
  | 0, _, _ => false
  | _ + 1, [], [] => true
  | _ + 1, [], _ :: _ => false
  | f + 1, c :: p, s =>
      if c = '*' then
        globMatchFuel f p s ||
          (match s with
           | [] => false
           | d :: s' => decide (d ≠ '/') && globMatchFuel f (c :: p) s')
      else
        match s with
        | [] => false
        | d :: s' => decide (c = d) && globMatchFuel f p s'

def globMatch (p s : List Char) : Bool :=
  globMatchFuel (p.length + s.length + 1) p s

theorem globMatchFuel_succ (f : Nat) (c : Char) (p s : List Char) :
    globMatchFuel (f + 1) (c :: p) s =
      (if c = '*' then
        globMatchFuel f p s ||
          (match s with
           | [] => false
           | d :: s' => decide (d ≠ '/') && globMatchFuel f (c :: p) s')
      else
        match s with
        | [] => false
        | d :: s' => decide (c = d) && globMatchFuel f p s') := rfl

theorem globMatchFuel_congr : ∀ (n : Nat) (p s : List Char) (f f' : Nat),
    p.length + s.length ≤ n → n < f → n < f' →
    globMatchFuel f p s = globMatchFuel f' p s := by
  intro n
  induction n with
  | zero =>
      intro p s f f' hlen hf hf'
      have hp : p = [] := List.length_eq_zero.mp (by omega)
      have hs : s = [] := List.length_eq_zero.mp (by omega)
      subst hp; subst hs
      cases f with
      | zero => omega
      | succ g =>
          cases f' with
          | zero => omega
          | succ g' => rfl
  | succ m ih =>
      intro p s f f' hlen hf hf'
      cases f with
      | zero => omega
      | succ g =>
          cases f' with
          | zero => omega
          | succ g' =>
              cases p with
              | nil => cases s <;> rfl
              | cons c p' =>
                  rw [globMatchFuel_succ, globMatchFuel_succ]
                  simp only [List.length_cons] at hlen
                  by_cases hc : c = '*'
                  · rw [if_pos hc, if_pos hc]
                    cases s with
                    | nil =>
                        simp only []
                        rw [ih p' [] g g'
                          (by simp only [List.length_nil] at hlen ⊢; omega)
                          (by omega) (by omega)]
                    | cons d s' =>
                        simp only []
                        simp only [List.length_cons] at hlen
                        rw [ih p' (d :: s') g g'
                          (by simp only [List.length_cons]; omega)
                          (by omega) (by omega)]
                        rw [ih (c :: p') s' g g'
                          (by simp only [List.length_cons]; omega)
                          (by omega) (by omega)]
                  · rw [if_neg hc, if_neg hc]
                    cases s with
                    | nil => simp only []
                    | cons d s' =>
                        simp only []
                        simp only [List.length_cons] at hlen
                        rw [ih p' s' g g' (by omega) (by omega) (by omega)]

theorem globMatch_nilPat (s : List Char) : globMatch [] s = s.isEmpty := by
  cases s <;> rfl

theorem globMatch_star (p s : List Char) :
    globMatch ('*' :: p) s =
      (globMatch p s ||
        (match s with
         | [] => false
         | d :: s' => decide (d ≠ '/') && globMatch ('*' :: p) s')) := by
  have h1 : ('*' :: p).length + s.length + 1 = (p.length + s.length + 1) + 1 := by
    simp only [List.length_cons]; omega
  rw [globMatch, h1, globMatchFuel_succ, if_pos rfl]
  congr 1
  cases s with
  | nil => rfl
  | cons d s' =>
      simp only []
      congr 1
      rw [globMatch]
      exact globMatchFuel_congr (('*' :: p).length + s'.length) ('*' :: p) s' _ _
        (Nat.le_refl _)
        (by simp only [List.length_cons]; omega)
        (by omega)

theorem globMatch_cons_ne (c : Char) (p s : List Char) (hc : c ≠ '*') :
    globMatch (c :: p) s =
      (match s with
       | [] => false
       | d :: s' => decide (c = d) && globMatch p s') := by
  have h1 : (c :: p).length + s.length + 1 = (p.length + s.length + 1) + 1 := by
    simp only [List.length_cons]; omega
  rw [globMatch, h1, globMatchFuel_succ, if_neg hc]
  cases s with
  | nil => rfl
  | cons d s' =>
      simp only []
      congr 1
      rw [globMatch]
      exact globMatchFuel_congr (p.length + s'.length) p s' _ _
        (Nat.le_refl _)
        (by simp only [List.length_cons]; omega)
        (by omega)

theorem globMatch_lit : ∀ (p s : List Char), '*' ∉ p →
    (globMatch p s = true ↔ s = p) := by
  intro p
  induction p with
  | nil =>
      intro s _
      rw [globMatch_nilPat]
      cases s <;> simp
  | cons c p' ih =>
      intro s hstar
      have hc : c ≠ '*' := fun h => hstar (by simp [h])
      have hp' : '*' ∉ p' := fun h => hstar (by simp [h])
      rw [globMatch_cons_ne c p' s hc]
      cases s with
      | nil => simp
      | cons d s' =>
          simp only [Bool.and_eq_true, decide_eq_true_eq, List.cons.injEq]
          rw [ih s' hp']
          constructor
          · rintro ⟨rfl, rfl⟩; exact ⟨rfl, rfl⟩
          · rintro ⟨rfl, rfl⟩; exact ⟨rfl, rfl⟩

theorem globMatch_star_suffix : ∀ (s p : List Char), '*' ∉ p →
    (globMatch ('*' :: p) s = true ↔ ∃ pre, s = pre ++ p ∧ '/' ∉ pre) := by
  intro s
  induction s with
  | nil =>
      intro p hp
      rw [globMatch_star]
      simp only [Bool.or_false]
      rw [globMatch_lit p [] hp]
      constructor
      · rintro rfl
        exact ⟨[], rfl, by simp⟩
      · rintro ⟨pre, hpre, -⟩
        rcases List.append_eq_nil.mp hpre.symm with ⟨-, h2⟩
        rw [h2]
  | cons d s' ih =>
      intro p hp
      rw [globMatch_star]
      simp only [Bool.or_eq_true, Bool.and_eq_true, decide_eq_true_eq]
      rw [globMatch_lit p (d :: s') hp, ih p hp]
      constructor
      · rintro (rfl | ⟨hd, pre', hpre', hsl⟩)
        · exact ⟨[], rfl, by simp⟩
        · refine ⟨d :: pre', by rw [hpre']; rfl, ?_⟩
          intro hmem
          rcases List.mem_cons.mp hmem with h | h
          · exact hd h.symm
          · exact hsl h
      · rintro ⟨pre, hpre, hsl⟩
        cases pre with
        | nil => exact Or.inl (by simpa using hpre)
        | cons e pre' =>
            right
            simp only [List.cons_append, List.cons.injEq] at hpre
            refine ⟨?_, pre', hpre.2, fun h => hsl (by simp [h])⟩
            intro hd
            exact hsl (List.mem_cons.mpr (Or.inl (by rw [← hd, hpre.1])))

/-! ## `pathType` and `unpackDist` -/

/-- `filepath.Base` for paths without a trailing separator: the part
after the last `/` (never containing a separator itself). -/
def filepathBase (path : String) : String :=
  String.mk ((path.toList.reverse.takeWhile (fun c => c ≠ '/')).reverse)

def filepathJoin (a b : String) : String := a ++ "/" ++ b

theorem slash_not_mem_base (path : String) :
    '/' ∉ (filepathBase path).toList := by
  intro h
  unfold filepathBase at h
  rw [show ({ data := (List.takeWhile (fun c => decide (c ≠ '/'))
      path.toList.reverse).reverse } : String).toList =
    (List.takeWhile (fun c => decide (c ≠ '/')) path.toList.reverse).reverse
    from rfl] at h
  rw [List.mem_reverse] at h
  have := List.mem_takeWhile_imp h
  simp at this

inductive DistType where
  | UNKNOWN_PATH
  | TGZ_PATH
  | TAR_PATH
  | ZIP_PATH
  | DIR_PATH
deriving DecidableEq, Repr

/-- The filesystem view `pathType` consults: whether `os.Stat(path)`
succeeds and reports a directory. -/
structure FileSys where
  isDir : String → Bool

def pathType (fs : FileSys) (path : String) : DistType :=
  let base := (filepathBase path).toList
  if globMatch "*.tar.gz".toList base then .TGZ_PATH
  else if globMatch "*.tar".toList base then .TAR_PATH
  else if globMatch "*.zip".toList base then .ZIP_PATH
  else if fs.isDir path then .DIR_PATH
  else .UNKNOWN_PATH

/-- Outcomes of the external steps of distribution setup: the `tar` and
`unzip` subprocesses, the `os.Stat` checks on required files, the
contents of `include/mysql_version.h` (`none` = open fails), and the
output of `mysqld --version` (`none` = command fails). -/
structure DistEnv where
  tarOk : Bool
  zipOk : Bool
  statOkAt : String → Bool
  versionFile : Option String
  mysqldVersionOut : Option String

/-- `strings.TrimSuffix`. -/
def trimSuffixStr (s suffix : String) : String :=
  if suffix.toList.isSuffixOf s.toList then
    String.mk (s.toList.take (s.toList.length - suffix.toList.length))
  else s

/-- `Dist.unpackTar`: sets `Name` and `Root` before running
`tar xzf path -C root`. -/
def unpackTar (env : DistEnv) (dt : Dist) (root path : String) :
    Dist × Except GoError Unit :=
  let base := filepathBase path
  let name := trimSuffixStr base ".tar.gz"
  ({ dt with Name := name, Root := filepathJoin root name },
   if env.tarOk then .ok () else .error (.execFailed "tar"))

/-- `Dist.unpackZip`: sets `Name` and `Root` before running `unzip`. -/
def unpackZip (env : DistEnv) (dt : Dist) (root path : String) :
    Dist × Except GoError Unit :=
  let base := filepathBase path
  let name := trimSuffixStr base ".zip"
  ({ dt with Name := name, Root := filepathJoin root name },
   if env.zipOk then .ok () else .error (.execFailed "unzip"))

/-- `Dist.unpackDist`: dispatch on `pathType`.  The `switch` has cases
for `TGZ_PATH`, `ZIP_PATH` and `DIR_PATH` only; `TAR_PATH` falls through
to `default` and `ErrInvalidDist`.  In the directory case the
`os.Symlink` error is discarded by the source. -/
def unpackDist (env : DistEnv) (fs : FileSys) (dt : Dist) (root path : String) :
    Dist × Except GoError Unit :=
  match pathType fs path with
  | .TGZ_PATH => unpackTar env dt root path
  | .ZIP_PATH => unpackZip env dt root path
  | .DIR_PATH =>
      let name := filepathBase path
      ({ dt with Name := name, Root := filepathJoin root name }, .ok ())
  | _ => (dt, .error .invalidDist)

theorem globMatch_pat_suffix (lit base : List Char)
    (hstar : '*' ∉ lit) (hslash : '/' ∉ base) :
    (globMatch ('*' :: lit) base = true ↔ lit.isSuffixOf base = true) := by
  rw [globMatch_star_suffix base lit hstar, List.isSuffixOf_iff_suffix]
  constructor
  · rintro ⟨pre, rfl, -⟩
    exact ⟨pre, rfl⟩
  · rintro ⟨pre, hpre⟩
    exact ⟨pre, hpre.symm, fun h => hslash (by rw [← hpre]; simp [h])⟩

theorem globMatch_bool_eq_suffix (lit base : List Char)
    (hstar : '*' ∉ lit) (hslash : '/' ∉ base) :
    globMatch ('*' :: lit) base = lit.isSuffixOf base := by
  have hiff := globMatch_pat_suffix lit base hstar hslash
  cases hsf : lit.isSuffixOf base with
  | true => exact hiff.mpr hsf
  | false =>
      cases hgm : globMatch ('*' :: lit) base with
      | false => rfl
      | true =>
          have := hiff.mp hgm
          rw [hsf] at this
          exact absurd this (by simp)

/-- C3 counterexample: `"dist.tar"` is classified `TAR_PATH` by
`pathType`, yet `unpackDist` has no case for `TAR_PATH` and fails with
`ErrInvalidDist` instead of dispatching to an unpack strategy — so one
of the four recognized kinds is not dispatched, contradicting the claim. -/
def fsNoDirs : FileSys := { isDir := fun _ => false }

def envAll : DistEnv :=
  { tarOk := true, zipOk := true, statOkAt := fun _ => true,
    versionFile := none, mysqldVersionOut := none }

theorem unpackDist_tar_counterexample :
    pathType fsNoDirs "dist.tar" = .TAR_PATH
    ∧ (unpackDist envAll fsNoDirs newDist "/stable/dist" "dist.tar").2 =
        .error .invalidDist
    ∧ (unpackDist envAll fsNoDirs newDist "/stable/dist" "dist.tar").1 = newDist := by
  exact ⟨rfl, rfl, rfl⟩

/-- C3 (amended): `pathType` classifies by basename in the priority order
gzip-tar, plain tar, zip, existing directory, else unknown; `unpackDist`
dispatches gzip-tar to the tar strategy, zip to the zip strategy and
directory to the symlink path, but both plain tar (`TAR_PATH`, which the
`switch` does not handle) and unknown paths fail with
`InvalidDistribution`. -/
theorem unpackDist_dispatch (fs : FileSys) (env : DistEnv) (dt : Dist)
    (root path : String) :
    (".tar.gz".toList.isSuffixOf (filepathBase path).toList = true →
      pathType fs path = .TGZ_PATH ∧
      unpackDist env fs dt root path = unpackTar env dt root path)
    ∧ (".tar.gz".toList.isSuffixOf (filepathBase path).toList = false →
        ".tar".toList.isSuffixOf (filepathBase path).toList = true →
      pathType fs path = .TAR_PATH ∧
      (unpackDist env fs dt root path).2 = .error .invalidDist)
    ∧ (".tar.gz".toList.isSuffixOf (filepathBase path).toList = false →
        ".tar".toList.isSuffixOf (filepathBase path).toList = false →
        ".zip".toList.isSuffixOf (filepathBase path).toList = true →
      pathType fs path = .ZIP_PATH ∧
      unpackDist env fs dt root path = unpackZip env dt root path)
    ∧ (".tar.gz".toList.isSuffixOf (filepathBase path).toList = false →
        ".tar".toList.isSuffixOf (filepathBase path).toList = false →
        ".zip".toList.isSuffixOf (filepathBase path).toList = false →
        fs.isDir path = true →
      pathType fs path = .DIR_PATH ∧
      unpackDist env fs dt root path =
        ({ dt with Name := filepathBase path,
                   Root := filepathJoin root (filepathBase path) }, .ok ()))
    ∧ (".tar.gz".toList.isSuffixOf (filepathBase path).toList = false →
        ".tar".toList.isSuffixOf (filepathBase path).toList = false →
        ".zip".toList.isSuffixOf (filepathBase path).toList = false →
        fs.isDir path = false →
      pathType fs path = .UNKNOWN_PATH ∧
      (unpackDist env fs dt root path).2 = .error .invalidDist) := by
  have hslash := slash_not_mem_base path
  have e1 : globMatch "*.tar.gz".toList (filepathBase path).toList =
      ".tar.gz".toList.isSuffixOf (filepathBase path).toList := by
    rw [show ("*.tar.gz".toList : List Char) = '*' :: ".tar.gz".toList from by decide]
    exact globMatch_bool_eq_suffix _ _ (by decide) hslash
  have e2 : globMatch "*.tar".toList (filepathBase path).toList =
      ".tar".toList.isSuffixOf (filepathBase path).toList := by
    rw [show ("*.tar".toList : List Char) = '*' :: ".tar".toList from by decide]
    exact globMatch_bool_eq_suffix _ _ (by decide) hslash
  have e3 : globMatch "*.zip".toList (filepathBase path).toList =
      ".zip".toList.isSuffixOf (filepathBase path).toList := by
    rw [show ("*.zip".toList : List Char) = '*' :: ".zip".toList from by decide]
    exact globMatch_bool_eq_suffix _ _ (by decide) hslash
  refine ⟨?_, ?_, ?_, ?_, ?_⟩
  · intro h1
    have hpt : pathType fs path = .TGZ_PATH := by
      simp only [pathType]
      rw [e1, h1]
      rfl
    exact ⟨hpt, by unfold unpackDist; rw [hpt]⟩
  · intro h1 h2
    have hpt : pathType fs path = .TAR_PATH := by
      simp only [pathType]
      rw [e1, h1, e2, h2]
      rfl
    exact ⟨hpt, by unfold unpackDist; rw [hpt]⟩
  · intro h1 h2 h3
    have hpt : pathType fs path = .ZIP_PATH := by
      simp only [pathType]
      rw [e1, h1, e2, h2, e3, h3]
      rfl
    exact ⟨hpt, by unfold unpackDist; rw [hpt]⟩
  · intro h1 h2 h3 h4
    have hpt : pathType fs path = .DIR_PATH := by
      simp only [pathType]
      rw [e1, h1, e2, h2, e3, h3, h4]
      rfl
    exact ⟨hpt, by unfold unpackDist; rw [hpt]⟩
  · intro h1 h2 h3 h4
    have hpt : pathType fs path = .UNKNOWN_PATH := by
      simp only [pathType]
      rw [e1, h1, e2, h2, e3, h3, h4]
      rfl
    exact ⟨hpt, by unfold unpackDist; rw [hpt]⟩

/-! ## The `stable` package: `Stable`, `Server`, counters and registry
operations

Go maps are association lists in insertion order as before; the
`*Dist` pointer held by a `Server` is embedded by value (`DelDistByName`
compares the pointers, embedded as value equality of the `Dist`
record).  `strconv.Itoa` on the non-negative ports and ids is
`toString`; Go string comparison (`>=` / `<=`) is byte-wise
lexicographic order. -/

def lexLt : List Char → List Char → Bool
  | [], [] => false
  | [], _ :: _ => true
  | _ :: _, [] => false
  | a :: as, b :: bs =>
      if a.toNat < b.toNat then true
      else if b.toNat < a.toNat then false
      else lexLt as bs

def goStrGe (a b : String) : Bool := !(lexLt a.toList b.toList)

def goStrLe (a b : String) : Bool := !(lexLt b.toList a.toList)

/-- `Section.Import`: `SetString` for each pair (map iteration
determinized to list order). -/
def CnfSection.Import (sec : CnfSection) (contents : List (String × String)) :
    CnfSection :=
  contents.foldl (fun s kv => s.SetString kv.1 kv.2) sec

/-- Apply `f` to the section named `name` (the Go code updates the
section in place through the `*Section` pointer). -/
def mapSection (c : Config) (name : String) (f : CnfSection → CnfSection) :
    Config :=
  { c with
    Section := c.Section.map
      (fun p => if p.1 = name then (p.1, f p.2) else p) }

/-- `Config.Import`: for each section, add it if absent then import the
options into it.  The `AddSection` error return is unreachable (the
lookup just failed) but kept for faithfulness. -/
def Config.Import (c : Config) : List (String × List (String × String)) →
    Config × Except GoError Unit
  | [] => (c, .ok ())
  | (sec, contents) :: rest =>
      match assocFind c.Section sec with
      | some _ => Config.Import (mapSection c sec (fun s => s.Import contents)) rest
      | none =>
          match c.AddSection sec with
          | .error e => (c, .error e)
          | .ok (c2, _) =>
              Config.Import (mapSection c2 sec (fun s => s.Import contents)) rest

structure Server where
  Name : String
  Host : String
  Socket : String
  BaseDir : String
  DataDir : String
  ConfigFile : String
  BinPath : String
  LogPath : String
  PidPath : String
  ServerId : Nat
  Port : Nat
  Options : Config
  User : String
  Password : String
  database : String
  Dist : Dist
deriving DecidableEq, Repr

/-- `srv.bin(name)` = `filepath.Join(srv.Dist.Root, "bin", name)`. -/
def Server.bin (srv : Server) (name : String) : String :=
  filepathJoin (filepathJoin srv.Dist.Root "bin") name

def Server.logFile (srv : Server) (name : String) : String :=
  filepathJoin (filepathJoin srv.BaseDir "log") name

def Server.runFile (srv : Server) (name : String) : String :=
  filepathJoin (filepathJoin srv.BaseDir "run") name

/-- `Server.fixDynamicFields`: fill in each empty dynamic field. -/
def Server.fixDynamicFields (srv : Server) : Server :=
  let srv := if srv.BinPath.length = 0
    then { srv with BinPath := srv.bin "mysqld" } else srv
  let srv := if srv.LogPath.length = 0
    then { srv with LogPath := srv.logFile "mysqld.err" } else srv
  let srv := if srv.PidPath.length = 0
    then { srv with PidPath := srv.runFile "mysqld.pid" } else srv
  if srv.Socket.length = 0
    then { srv with Socket := srv.runFile "mysqld.sock" } else srv

structure Stable where
  Root : String
  Distro : List (String × Dist)
  Server : List (String × Server)
  NextPort : Nat
  NextServerId : Nat
  distDir : String
  serverDir : String
  tmpDir : String
deriving DecidableEq, Repr

/-- `Stable.fetchPortNumber`: `NextPort++; return NextPort - 1`. -/
def Stable.fetchPortNumber (st : Stable) : Stable × Nat :=
  let st := { st with NextPort := st.NextPort + 1 }
  (st, st.NextPort - 1)

/-- `Stable.fetchServerId`: `NextServerId++; return NextServerId - 1`. -/
def Stable.fetchServerId (st : Stable) : Stable × Nat :=
  let st := { st with NextServerId := st.NextServerId + 1 }
  (st, st.NextServerId - 1)

/-- `newStable` for an absolute `path` (the `absPath` call is the
identity on absolute paths): root is `path/.stable`, counters start at
12000 and 1, and the three working directories hang off the root. -/
def newStable (path : String) : Stable :=
  let root := filepathJoin path ".stable"
  { Root := root, Distro := [], Server := [],
    NextPort := 12000, NextServerId := 1,
    distDir := filepathJoin root "dist",
    serverDir := filepathJoin root "server",
    tmpDir := filepathJoin root "tmp" }

def sq : String := String.mk [Char.ofNat 39]

/-- `Stable.newServer`: the port and server id are fetched from the
counters first (before any fallible step of `AddServer` runs), then the
server record is built, its dynamic fields fixed, and the default
option map imported (the `Import` error result is discarded by the
source; map literal iteration is determinized to source order). -/
def Stable.newServer (st : Stable) (name : String) (dist : Dist) :
    Stable × GoMysqld.Server :=
  let baseDir := filepathJoin st.serverDir name
  let dataDir := filepathJoin baseDir "data"
  let cnfFile := filepathJoin baseDir "my.cnf"
  let p1 := st.fetchPortNumber
  let p2 := p1.1.fetchServerId
  let port := p1.2
  let serverId := p2.2
  let server : GoMysqld.Server :=
    { Name := name, Host := "localhost", Socket := "",
      BaseDir := baseDir, DataDir := dataDir, ConfigFile := cnfFile,
      BinPath := "", LogPath := "", PidPath := "",
      ServerId := serverId, Port := port,
      Options := cnfNew, User := "root", Password := "", database := "",
      Dist := dist }
  let server := server.fixDynamicFields
  let option : List (String × List (String × String)) :=
    [("mysqladmin",
      [("socket", server.Socket), ("user", "root"), ("host", server.Host),
       ("port", toString server.Port)]),
     ("mysqld",
      [("basedir", baseDir), ("datadir", dataDir), ("socket", server.Socket),
       ("port", toString server.Port), ("pid_file", server.PidPath),
       ("server_id", toString serverId)]
      ++ (if goStrGe dist.Version "5.1.6" then [("log-output", "file")] else [])
      ++ (if goStrLe dist.Version "5.5.0" then
            [("language", filepathJoin (filepathJoin dist.Root "share") "english")]
          else
            [("lc_messages_dir", filepathJoin dist.Root "share"),
             ("lc_messages", "en_US")])),
     ("mysql",
      [("protocol", "tcp"), ("host", server.Host),
       ("port", toString server.Port), ("prompt", sq ++ name ++ "> " ++ sq)])]
  let server := { server with Options := (server.Options.Import option).1 }
  (p2.1, server)

/-- Outcomes of the external steps of server creation: whether each
`os.Mkdir` and the `os.Create` of `my.cnf` succeed, and the outcome of
the bootstrap phase (file copies plus the `mysqld --bootstrap` run,
abstracted as a single result since it is all subprocess and file
effects). -/
structure SrvEnv where
  mkdirOk : String → Bool
  createOk : String → Bool
  bootstrapErr : Option GoError

def Server.setupDirs (srv : Server) : List String :=
  [srv.BaseDir, srv.DataDir,
   filepathJoin srv.BaseDir "run",
   filepathJoin srv.BaseDir "log",
   filepathJoin srv.BaseDir "tmp"]

/-- `Server.setup`: `os.Mkdir` each directory in order, returning at the
first failure; then create `my.cnf` (the `Options.Write` result is
discarded by the source).  No cleanup on error — the source comment
says that is the caller's responsibility. -/
def Server.setup (env : SrvEnv) (srv : Server) : Except GoError Unit :=
  match srv.setupDirs.find? (fun d => !(env.mkdirOk d)) with
  | some d => .error (.mkdirFailed d)
  | none =>
      let cnfFile := filepathJoin srv.BaseDir "my.cnf"
      if env.createOk cnfFile then .ok () else .error (.createFailed cnfFile)

def Server.bootstrap (env : SrvEnv) (_srv : Server) : Except GoError Unit :=
  match env.bootstrapErr with
  | some e => .error e
  | none => .ok ()

/-- `Stable.AddServer`.  The third component records the `os.RemoveAll`
calls the operation performs: on a `setup` failure the source returns
WITHOUT any cleanup; only a bootstrap failure removes the base
directory.  Success registers the server under `name`. -/
def Stable.AddServer (st : Stable) (env : SrvEnv) (name : String)
    (dist : Dist) : Stable × Except GoError GoMysqld.Server × List String :=
  let p := st.newServer name dist
  match Server.setup env p.2 with
  | .error e => (p.1, .error e, [])
  | .ok _ =>
      match Server.bootstrap env p.2 with
      | .error e => (p.1, .error e, [p.2.BaseDir])
      | .ok _ =>
          ({ p.1 with Server := assocSet p.1.Server name p.2 }, .ok p.2, [])

/-- `Stable.DelServerByName` (the `teardown` `os.RemoveAll` is modelled
as always succeeding). -/
def Stable.DelServerByName (st : Stable) (name : String) :
    Stable × Except GoError Unit :=
  match assocFind st.Server name with
  | none => (st, .error (.formatted ("No server named \"" ++ name ++ "\" exists")))
  | some srv =>
      ({ st with Server := assocErase st.Server srv.Name }, .ok ())

/-- `Stable.DelDistByName`: cascades deletion of every server whose
`Dist` pointer equals the distribution, then deletes the distribution
under `dist.Name`. -/
def Stable.DelDistByName (st : Stable) (name : String) :
    Stable × Except GoError Unit :=
  match assocFind st.Distro name with
  | none =>
      (st, .error (.formatted ("No distribution named \"" ++ name ++ "\" exists")))
  | some dist =>
      let st := { st with
                  Server := st.Server.filter (fun p => !(decide (p.2.Dist = dist))) }
      ({ st with Distro := assocErase st.Distro dist.Name }, .ok ())

/-! ## `Dist.setup` and `Stable.AddDist` -/

def sqlFiles : List String :=
  ["mysql_system_tables.sql", "mysql_system_tables_data.sql",
   "mysql_test_data_timezone.sql", "fill_help_tables.sql"]

def includeFiles : List String := ["include/mysql_version.h"]

/-- `Dist.checkDistFiles`: `os.Stat(Join(Root, path))` for each file,
first failure returned. -/
def checkDistFiles (env : DistEnv) (dt : Dist) (files : List String) :
    Except GoError Unit :=
  match files.find? (fun f => !(env.statOkAt (filepathJoin dt.Root f))) with
  | some f => .error (.statFailed (filepathJoin dt.Root f))
  | none => .ok ()

/-- `Dist.readVersionFile`: open failure is reported as `ErrInvalidDist`;
otherwise the version header scan runs. -/
def readVersionFile (env : DistEnv) (dt : Dist) : Dist × Except GoError Unit :=
  match env.versionFile with
  | none => (dt, .error .invalidDist)
  | some content =>
      match scanVersionFile dt content.toList with
      | (dt2, some e) => (dt2, .error e)
      | (dt2, none) => (dt2, .ok ())

/-- The version-number part `\d+\.\d+\.\d+\S*` of `parseVersionString`:
returns the matched text and the rest of the input. -/
def parseVerNum (l : List Char) : Option (List Char × List Char) :=
  let d1 := l.takeWhile Char.isDigit
  let r1 := l.dropWhile Char.isDigit
  if d1 = [] then none else
  match r1 with
  | '.' :: r2 =>
      let d2 := r2.takeWhile Char.isDigit
      let r3 := r2.dropWhile Char.isDigit
      if d2 = [] then none else
      match r3 with
      | '.' :: r4 =>
          let d3 := r4.takeWhile Char.isDigit
          let r5 := r4.dropWhile Char.isDigit
          if d3 = [] then none else
          some (d1 ++ ['.'] ++ d2 ++ ['.'] ++ d3
                  ++ r5.takeWhile (fun c => !isSpaceRe c),
                r5.dropWhile (fun c => !isSpaceRe c))
      | _ => none
  | _ => none

/-- `Dist.parseVersionString`: the anchored regexp
`^\S+\s+Ver\s+(\d+\.\d+\.\d+\S*)\s+for\s+(\S+)` as a deterministic
parse (each greedy `\S+`/`\s+`/`\d+` run is forced, since shrinking a
run would put the wrong character class at the seam).  On a match the
first capture group becomes `ServerVersion`; otherwise the record is
unchanged. -/
def parseVersionString (dt : Dist) (version : String) : Dist :=
  let l := version.toList
  let w1 := l.takeWhile (fun c => !isSpaceRe c)
  let r1 := l.dropWhile (fun c => !isSpaceRe c)
  if w1 = [] then dt else
  let s1 := r1.takeWhile isSpaceRe
  let r2 := r1.dropWhile isSpaceRe
  if s1 = [] then dt else
  if r2.take 3 ≠ "Ver".toList then dt else
  let r3 := r2.drop 3
  let s2 := r3.takeWhile isSpaceRe
  let r4 := r3.dropWhile isSpaceRe
  if s2 = [] then dt else
  match parseVerNum r4 with
  | none => dt
  | some (ver, r5) =>
      let s3 := r5.takeWhile isSpaceRe
      let r6 := r5.dropWhile isSpaceRe
      if s3 = [] then dt else
      if r6.take 3 ≠ "for".toList then dt else
      let r7 := r6.drop 3
      let s4 := r7.takeWhile isSpaceRe
      let r8 := r7.dropWhile isSpaceRe
      if s4 = [] then dt else
      if r8.takeWhile (fun c => !isSpaceRe c) = [] then dt else
      { dt with ServerVersion := String.mk ver }

/-- `Dist.readServerInfo`: run `bin/mysqld --version`; on success parse
its output (a parse miss is not an error). -/
def readServerInfo (env : DistEnv) (dt : Dist) : Dist × Except GoError Unit :=
  match env.mysqldVersionOut with
  | none =>
      (dt, .error (.execFailed (filepathJoin (filepathJoin dt.Root "bin") "mysqld")))
  | some out => (parseVersionString dt out, .ok ())

/-- `Dist.setup`: unpack, check the bootstrap and include files, read the
version header, read the server info — stopping at the first error. -/
def distSetup (env : DistEnv) (fs : FileSys) (dt : Dist)
    (distDir path : String) : Dist × Except GoError Unit :=
  match unpackDist env fs dt distDir path with
  | (dt1, .error e) => (dt1, .error e)
  | (dt1, .ok _) =>
      match checkDistFiles env dt1 sqlFiles with
      | .error e => (dt1, .error e)
      | .ok _ =>
          match checkDistFiles env dt1 includeFiles with
          | .error e => (dt1, .error e)
          | .ok _ =>
              match readVersionFile env dt1 with
              | (dt2, .error e) => (dt2, .error e)
              | (dt2, .ok _) => readServerInfo env dt2

/-- `Stable.AddDist`.  The third component records the `os.RemoveAll`
calls: the source's cleanup guard is `if len(dt.Root) == 0` — inverted,
so cleanup runs exactly when there is nothing to remove.  Success
registers the distribution under `dt.Name`. -/
def Stable.AddDist (st : Stable) (env : DistEnv) (fs : FileSys)
    (path : String) : Stable × Except GoError Dist × List String :=
  let dt := newDist
  match distSetup env fs dt st.distDir path with
  | (dt1, .error e) =>
      (st, .error e, if dt1.Root.length = 0 then [dt1.Root] else [])
  | (dt1, .ok _) =>
      ({ st with Distro := assocSet st.Distro dt1.Name dt1 }, .ok dt1, [])

/-! ## Counter behaviour of the registry operations (C4) -/

theorem newServer_fst (st : Stable) (name : String) (dist : Dist) :
    (st.newServer name dist).1 =
      { st with NextPort := st.NextPort + 1,
                NextServerId := st.NextServerId + 1 } := rfl

theorem newServer_snd_Port (st : Stable) (name : String) (dist : Dist) :
    (st.newServer name dist).2.Port = st.NextPort := rfl

theorem newServer_snd_ServerId (st : Stable) (name : String) (dist : Dist) :
    (st.newServer name dist).2.ServerId = st.NextServerId := rfl

theorem AddServer_fst_counters (st : Stable) (env : SrvEnv) (name : String)
    (dist : Dist) :
    (st.AddServer env name dist).1.NextPort = st.NextPort + 1 ∧
    (st.AddServer env name dist).1.NextServerId = st.NextServerId + 1 := by
  simp only [Stable.AddServer]
  cases Server.setup env (st.newServer name dist).2 with
  | error e => exact ⟨rfl, rfl⟩
  | ok u =>
      cases Server.bootstrap env (st.newServer name dist).2 with
      | error e => exact ⟨rfl, rfl⟩
      | ok v => exact ⟨rfl, rfl⟩

theorem DelServer_fst_counters (st : Stable) (name : String) :
    (st.DelServerByName name).1.NextPort = st.NextPort ∧
    (st.DelServerByName name).1.NextServerId = st.NextServerId := by
  simp only [Stable.DelServerByName]
  cases assocFind st.Server name with
  | none => exact ⟨rfl, rfl⟩
  | some srv => exact ⟨rfl, rfl⟩

theorem DelDist_fst_counters (st : Stable) (name : String) :
    (st.DelDistByName name).1.NextPort = st.NextPort ∧
    (st.DelDistByName name).1.NextServerId = st.NextServerId := by
  simp only [Stable.DelDistByName]
  cases assocFind st.Distro name with
  | none => exact ⟨rfl, rfl⟩
  | some dist => exact ⟨rfl, rfl⟩

theorem AddDist_fst_counters (st : Stable) (env : DistEnv) (fs : FileSys)
    (path : String) :
    (st.AddDist env fs path).1.NextPort = st.NextPort ∧
    (st.AddDist env fs path).1.NextServerId = st.NextServerId := by
  simp only [Stable.AddDist]
  cases distSetup env fs newDist st.distDir path with
  | mk dt r =>
      cases r with
      | error e => exact ⟨rfl, rfl⟩
      | ok u => exact ⟨rfl, rfl⟩

/-- A registry operation on a stable, with its environment. -/
inductive RegOp where
  | addDist (env : DistEnv) (fs : FileSys) (path : String)
  | delDist (name : String)
  | addServer (env : SrvEnv) (name : String) (dist : Dist)
  | delServer (name : String)

def runOp (st : Stable) : RegOp → Stable
  | .addDist env fs path => (st.AddDist env fs path).1
  | .delDist name => (st.DelDistByName name).1
  | .addServer env name dist => (st.AddServer env name dist).1
  | .delServer name => (st.DelServerByName name).1

/-- The port allocated by each `AddServer` call in a sequence of
registry operations (a port is consumed whether or not the call
succeeds). -/
def opPorts (st : Stable) : List RegOp → List Nat
  | [] => []
  | .addServer env name dist :: ops =>
      (st.newServer name dist).2.Port ::
        opPorts (runOp st (.addServer env name dist)) ops
  | .addDist env fs path :: ops => opPorts (runOp st (.addDist env fs path)) ops
  | .delDist name :: ops => opPorts (runOp st (.delDist name)) ops
  | .delServer name :: ops => opPorts (runOp st (.delServer name)) ops

/-- The server id allocated by each `AddServer` call in a sequence of
registry operations. -/
def opIds (st : Stable) : List RegOp → List Nat
  | [] => []
  | .addServer env name dist :: ops =>
      (st.newServer name dist).2.ServerId ::
        opIds (runOp st (.addServer env name dist)) ops
  | .addDist env fs path :: ops => opIds (runOp st (.addDist env fs path)) ops
  | .delDist name :: ops => opIds (runOp st (.delDist name)) ops
  | .delServer name :: ops => opIds (runOp st (.delServer name)) ops

theorem runOp_counters_le (st : Stable) (op : RegOp) :
    st.NextPort ≤ (runOp st op).NextPort ∧
    st.NextServerId ≤ (runOp st op).NextServerId := by
  cases op with
  | addDist env fs path =>
      exact ⟨Nat.le_of_eq (AddDist_fst_counters st env fs path).1.symm,
             Nat.le_of_eq (AddDist_fst_counters st env fs path).2.symm⟩
  | delDist name =>
      exact ⟨Nat.le_of_eq (DelDist_fst_counters st name).1.symm,
             Nat.le_of_eq (DelDist_fst_counters st name).2.symm⟩
  | addServer env name dist =>
      constructor
      · show st.NextPort ≤ (st.AddServer env name dist).1.NextPort
        rw [(AddServer_fst_counters st env name dist).1]
        exact Nat.le_succ _
      · show st.NextServerId ≤ (st.AddServer env name dist).1.NextServerId
        rw [(AddServer_fst_counters st env name dist).2]
        exact Nat.le_succ _
  | delServer name =>
      exact ⟨Nat.le_of_eq (DelServer_fst_counters st name).1.symm,
             Nat.le_of_eq (DelServer_fst_counters st name).2.symm⟩

theorem opPorts_mem_ge (ops : List RegOp) : ∀ (st : Stable) (x : Nat),
    x ∈ opPorts st ops → st.NextPort ≤ x := by
  induction ops with
  | nil => intro st x hx; simp [opPorts] at hx
  | cons op ops ih =>
      intro st x hx
      cases op with
      | addServer env name dist =>
          simp only [opPorts, newServer_snd_Port] at hx
          rcases List.mem_cons.mp hx with rfl | hx2
          · exact Nat.le_refl _
          · have h1 := ih _ _ hx2
            have h3 : (runOp st (.addServer env name dist)).NextPort =
                st.NextPort + 1 := (AddServer_fst_counters st env name dist).1
            omega
      | addDist env fs path =>
          simp only [opPorts] at hx
          have h1 := ih _ _ hx
          have h2 := (runOp_counters_le st (.addDist env fs path)).1
          omega
      | delDist name =>
          simp only [opPorts] at hx
          have h1 := ih _ _ hx
          have h2 := (runOp_counters_le st (.delDist name)).1
          omega
      | delServer name =>
          simp only [opPorts] at hx
          have h1 := ih _ _ hx
          have h2 := (runOp_counters_le st (.delServer name)).1
          omega

theorem opIds_mem_ge (ops : List RegOp) : ∀ (st : Stable) (x : Nat),
    x ∈ opIds st ops → st.NextServerId ≤ x := by
  induction ops with
  | nil => intro st x hx; simp [opIds] at hx
  | cons op ops ih =>
      intro st x hx
      cases op with
      | addServer env name dist =>
          simp only [opIds, newServer_snd_ServerId] at hx
          rcases List.mem_cons.mp hx with rfl | hx2
          · exact Nat.le_refl _
          · have h1 := ih _ _ hx2
            have h3 : (runOp st (.addServer env name dist)).NextServerId =
                st.NextServerId + 1 := (AddServer_fst_counters st env name dist).2
            omega
      | addDist env fs path =>
          simp only [opIds] at hx
          have h1 := ih _ _ hx
          have h2 := (runOp_counters_le st (.addDist env fs path)).2
          omega
      | delDist name =>
          simp only [opIds] at hx
          have h1 := ih _ _ hx
          have h2 := (runOp_counters_le st (.delDist name)).2
          omega
      | delServer name =>
          simp only [opIds] at hx
          have h1 := ih _ _ hx
          have h2 := (runOp_counters_le st (.delServer name)).2
          omega

theorem opPorts_pairwise (ops : List RegOp) :
    ∀ st : Stable, (opPorts st ops).Pairwise (· < ·) := by
  induction ops with
  | nil => intro st; simp [opPorts]
  | cons op ops ih =>
      intro st
      cases op with
      | addServer env name dist =>
          simp only [opPorts, newServer_snd_Port]
          refine List.pairwise_cons.mpr ⟨?_, ih _⟩
          intro x hx
          have h1 := opPorts_mem_ge ops _ x hx
          have h3 : (runOp st (.addServer env name dist)).NextPort =
              st.NextPort + 1 := (AddServer_fst_counters st env name dist).1
          omega
      | addDist env fs path => simp only [opPorts]; exact ih _
      | delDist name => simp only [opPorts]; exact ih _
      | delServer name => simp only [opPorts]; exact ih _

theorem opIds_pairwise (ops : List RegOp) :
    ∀ st : Stable, (opIds st ops).Pairwise (· < ·) := by
  induction ops with
  | nil => intro st; simp [opIds]
  | cons op ops ih =>
      intro st
      cases op with
      | addServer env name dist =>
          simp only [opIds, newServer_snd_ServerId]
          refine List.pairwise_cons.mpr ⟨?_, ih _⟩
          intro x hx
          have h1 := opIds_mem_ge ops _ x hx
          have h3 : (runOp st (.addServer env name dist)).NextServerId =
              st.NextServerId + 1 := (AddServer_fst_counters st env name dist).2
          omega
      | addDist env fs path => simp only [opIds]; exact ih _
      | delDist name => simp only [opIds]; exact ih _
      | delServer name => simp only [opIds]; exact ih _

/-- C4: `NextPort` and `NextServerId` never decrease under any registry
operation (`AddDist`, `DelDistByName`, `AddServer`,
`DelServerByName`), and for any sequence of registry operations —
`AddServer` calls arbitrarily interleaved with deletions — the ports
allocated by the `AddServer` calls (in call order) are strictly
increasing, hence pairwise distinct; likewise the server ids. -/
theorem counters_monotone_ports_unique :
    (∀ (st : Stable) (op : RegOp),
        st.NextPort ≤ (runOp st op).NextPort ∧
        st.NextServerId ≤ (runOp st op).NextServerId)
    ∧ (∀ (st : Stable) (ops : List RegOp), (opPorts st ops).Pairwise (· < ·))
    ∧ (∀ (st : Stable) (ops : List RegOp), (opIds st ops).Pairwise (· < ·))
    ∧ (∀ (st : Stable) (ops : List RegOp), (opPorts st ops).Pairwise (· ≠ ·))
    ∧ (∀ (st : Stable) (ops : List RegOp), (opIds st ops).Pairwise (· ≠ ·)) := by
  refine ⟨runOp_counters_le,
          fun st ops => opPorts_pairwise ops st,
          fun st ops => opIds_pairwise ops st, ?_, ?_⟩
  · intro st ops
    exact (opPorts_pairwise ops st).imp (fun h => Nat.ne_of_lt h)
  · intro st ops
    exact (opIds_pairwise ops st).imp (fun h => Nat.ne_of_lt h)

/-! ## Cleanup on setup failure (C2) -/

def st0 : Stable := newStable "/home/u"

def dist0 : Dist :=
  { Root := "/home/u/.stable/dist/mysql-5.6", Name := "mysql-5.6",
    Version := "5.6.20", ServerVersion := "5.6.20", defaultPort := 3306 }

def envTarFail : DistEnv :=
  { tarOk := false, zipOk := true, statOkAt := fun _ => true,
    versionFile := some "# define MYSQL_SERVER_VERSION 5.6.20\n",
    mysqldVersionOut := some "mysqld Ver 5.6.20 for linux-glibc2.5\n" }

def envMkdirFail : SrvEnv :=
  { mkdirOk := fun _ => false, createOk := fun _ => true, bootstrapErr := none }

def envBootFail : SrvEnv :=
  { mkdirOk := fun _ => true, createOk := fun _ => true,
    bootstrapErr := some (.execFailed "mysqld") }

/-- C2: setup-phase failures do NOT clean up what was partially
created.  (1) `AddDist` on a gzip-tar whose extraction fails: the error
is surfaced and the registry is unchanged, but although `unpackTar` has
already set the non-empty unpack directory `dt.Root`, no `os.RemoveAll`
runs — the cleanup guard `if len(dt.Root) == 0` is inverted.  (2) The
inversion also fires the other way: on a path of no recognized kind
(`dt.Root` still empty, nothing created) `AddDist` DOES call
`os.RemoveAll("")`.  (3) `AddServer` whose `os.Mkdir` fails returns
with no cleanup at all, leaving the base directory behind.  (4) Only a
bootstrap failure removes the base directory.  In all failure cases the
registry maps are unchanged (that part of the claim holds). -/
theorem setup_failure_cleanup_bug :
    ((st0.AddDist envTarFail fsNoDirs "mysql-5.6.tar.gz").2.1 =
        .error (.execFailed "tar")
     ∧ (distSetup envTarFail fsNoDirs newDist st0.distDir "mysql-5.6.tar.gz").1.Root =
        "/home/u/.stable/dist/mysql-5.6"
     ∧ (st0.AddDist envTarFail fsNoDirs "mysql-5.6.tar.gz").2.2 = []
     ∧ (st0.AddDist envTarFail fsNoDirs "mysql-5.6.tar.gz").1 = st0)
    ∧ ((st0.AddDist envTarFail fsNoDirs "junkfile").2.1 = .error .invalidDist
       ∧ (st0.AddDist envTarFail fsNoDirs "junkfile").2.2 = [""])
    ∧ ((st0.AddServer envMkdirFail "s1" dist0).2.1 =
          .error (.mkdirFailed "/home/u/.stable/server/s1")
       ∧ (st0.AddServer envMkdirFail "s1" dist0).2.2 = []
       ∧ (st0.AddServer envMkdirFail "s1" dist0).1.Server = [])
    ∧ ((st0.AddServer envBootFail "s1" dist0).2.1 = .error (.execFailed "mysqld")
       ∧ (st0.AddServer envBootFail "s1" dist0).2.2 =
          ["/home/u/.stable/server/s1"]
       ∧ (st0.AddServer envBootFail "s1" dist0).1.Server = []) := by
  exact ⟨⟨rfl, rfl, rfl, rfl⟩, ⟨rfl, rfl⟩, ⟨rfl, rfl, rfl⟩, ⟨rfl, rfl, rfl⟩⟩

/-! ## `CreateStable` / `OpenStable` over a directory-tree model (C8)

The filesystem is a set of existing directories plus the decoded
content of each written `config.json`.  `json.Encoder`/`Decoder` move
only the exported fields: a `Stable` loses its unexported
`distDir`/`serverDir`/`tmpDir` (recomputed by `newStable` on open), a
`Dist` loses `stable` and `defaultPort` (zero on decode), a `Server`
loses `database`, and a `cnf.Section` loses its unexported `options`
map. -/

/-- `filepath.Dir` for clean absolute paths: everything before the last
`/`. -/
def dirname (path : String) : String :=
  String.mk (((path.toList.reverse.dropWhile (fun c => c ≠ '/')).drop 1).reverse)

structure FS where
  dirs : List String
  files : List (String × Stable)
deriving DecidableEq, Repr

/-- `os.Mkdir`: `EEXIST` if the directory exists, `ENOENT` if the parent
does not, otherwise create it. -/
def FS.mkdir (fs : FS) (path : String) : FS × Except GoError Unit :=
  if path ∈ fs.dirs then (fs, .error .eexist)
  else if dirname path ∈ fs.dirs then
    ({ fs with dirs := fs.dirs ++ [path] }, .ok ())
  else (fs, .error .enoent)

/-- `os.RemoveAll`: drop the path and everything below it. -/
def FS.removeAll (fs : FS) (path : String) : FS :=
  { dirs := fs.dirs.filter
      (fun d => !(d == path || (path ++ "/").toList.isPrefixOf d.toList)),
    files := fs.files.filter
      (fun p => !(p.1 == path || (path ++ "/").toList.isPrefixOf p.1.toList)) }

def persistDist (d : Dist) : Dist := { d with defaultPort := 0 }

def persistSection (s : CnfSection) : CnfSection := { s with options := [] }

def persistConfig (c : Config) : Config :=
  { c with Section := c.Section.map (fun p => (p.1, persistSection p.2)) }

def persistServer (s : Server) : Server :=
  { s with database := "", Options := persistConfig s.Options,
           Dist := persistDist s.Dist }

/-- What a JSON encode/decode round trip of a `Stable` preserves: the
exported fields, with the unexported ones at their zero values. -/
def persistStable (st : Stable) : Stable :=
  { Root := st.Root,
    Distro := st.Distro.map (fun p => (p.1, persistDist p.2)),
    Server := st.Server.map (fun p => (p.1, persistServer p.2)),
    NextPort := st.NextPort, NextServerId := st.NextServerId,
    distDir := "", serverDir := "", tmpDir := "" }

def configFile (st : Stable) : String := filepathJoin st.Root "config.json"

/-- `Stable.setup`: `Mkdir` the root — mapping `EEXIST` to
`ErrStableExists` and passing other errors through — then the three
working directories in order, removing the whole root on any subdirectory
failure. -/
def Stable.setup (st : Stable) (fs : FS) : FS × Except GoError Unit :=
  match fs.mkdir st.Root with
  | (fs1, .error e) =>
      (fs1, .error (if e = .eexist then .stableExists else e))
  | (fs1, .ok _) =>
      match fs1.mkdir st.distDir with
      | (fs2, .error e) => (fs2.removeAll st.Root, .error e)
      | (fs2, .ok _) =>
          match fs2.mkdir st.serverDir with
          | (fs3, .error e) => (fs3.removeAll st.Root, .error e)
          | (fs3, .ok _) =>
              match fs3.mkdir st.tmpDir with
              | (fs4, .error e) => (fs4.removeAll st.Root, .error e)
              | (fs4, .ok _) => (fs4, .ok ())

/-- `Stable.WriteConfig`: encode to a temp file in the root directory and
rename onto `config.json`; fails if the root directory is missing. -/
def Stable.WriteConfig (st : Stable) (fs : FS) : FS × Except GoError Unit :=
  if st.Root ∈ fs.dirs then
    ({ fs with files := assocSet fs.files (configFile st) (persistStable st) },
     .ok ())
  else (fs, .error (.openFailed st.Root))

/-- `Stable.ReadConfig`: open and decode `config.json` into the stable
(exported fields only), then run `fixDynamicFields` on every server. -/
def Stable.ReadConfig (st : Stable) (fs : FS) : Except GoError Stable :=
  match assocFind fs.files (configFile st) with
  | none => .error (.openFailed (configFile st))
  | some p =>
      .ok { st with Root := p.Root, Distro := p.Distro,
                    Server := p.Server.map (fun q => (q.1, q.2.fixDynamicFields)),
                    NextPort := p.NextPort, NextServerId := p.NextServerId }

def CreateStable (path : String) (fs : FS) : FS × Except GoError Stable :=
  let st := newStable path
  match st.setup fs with
  | (fs1, .error e) => (fs1, .error e)
  | (fs1, .ok _) =>
      match st.WriteConfig fs1 with
      | (fs2, .error e) => (fs2, .error e)
      | (fs2, .ok _) => (fs2, .ok st)

def OpenStable (path : String) (fs : FS) : Except GoError Stable :=
  (newStable path).ReadConfig fs

theorem filepathJoin_ne (a b : String) : filepathJoin a b ≠ a := by
  intro h
  have hlen := congrArg String.length h
  rw [filepathJoin] at hlen
  rw [String.length_append, String.length_append] at hlen
  rw [show ("/" : String).length = 1 from rfl] at hlen
  omega

theorem filepathJoin_right_inj (a b1 b2 : String)
    (h : filepathJoin a b1 = filepathJoin a b2) : b1 = b2 := by
  have hd := congrArg String.data h
  rw [filepathJoin, filepathJoin, String.data_append, String.data_append,
      String.data_append, String.data_append] at hd
  have hb := List.append_cancel_left hd
  exact congrArg String.mk hb

theorem dropWhile_append_of_all {α : Type} (p : α → Bool) (l1 l2 : List α)
    (h : ∀ c ∈ l1, p c = true) :
    List.dropWhile p (l1 ++ l2) = List.dropWhile p l2 := by
  induction l1 with
  | nil => rfl
  | cons c l ih =>
      rw [List.cons_append, List.dropWhile_cons_of_pos (h c (by simp))]
      exact ih (fun x hx => h x (by simp [hx]))

theorem dirname_join (a b : String) (hb : ∀ c ∈ b.toList, c ≠ '/') :
    dirname (filepathJoin a b) = a := by
  unfold dirname filepathJoin
  rw [show (a ++ "/" ++ b).toList = a.toList ++ '/' :: b.toList from by
        simp [String.toList, String.data_append]]
  rw [List.reverse_append, List.reverse_cons, List.append_assoc,
      List.singleton_append]
  rw [dropWhile_append_of_all _ (b.toList.reverse) _
        (fun c hc => by
          have := hb c (List.mem_reverse.mp hc)
          simpa using this)]
  rw [List.dropWhile_cons_of_neg (by simp)]
  rw [List.drop_one, List.tail_cons, List.reverse_reverse]
  exact strMk_toList a

theorem assocFind_assocSet_self {α : Type} (l : List (String × α)) (k : String)
    (v : α) : assocFind (assocSet l k v) k = some v := by
  induction l with
  | nil => simp [assocSet, assocFind]
  | cons p l ih =>
      by_cases h : p.1 = k
      · simp [assocSet, assocFind, h]
      · simp [assocSet, assocFind, h, ih]

theorem stableSetup_fresh (st : Stable) (fs : FS)
    (hdd : st.distDir = filepathJoin st.Root "dist")
    (hsd : st.serverDir = filepathJoin st.Root "server")
    (htd : st.tmpDir = filepathJoin st.Root "tmp")
    (hr : st.Root ∉ fs.dirs) (hp : dirname st.Root ∈ fs.dirs)
    (h1 : st.distDir ∉ fs.dirs) (h2 : st.serverDir ∉ fs.dirs)
    (h3 : st.tmpDir ∉ fs.dirs) :
    st.setup fs =
      ({ dirs := fs.dirs ++ [st.Root, st.distDir, st.serverDir, st.tmpDir],
         files := fs.files }, .ok ()) := by
  have hne1 : st.distDir ≠ st.Root := by rw [hdd]; exact filepathJoin_ne _ _
  have hne2a : st.serverDir ≠ st.Root := by rw [hsd]; exact filepathJoin_ne _ _
  have hne2b : st.serverDir ≠ st.distDir := by
    rw [hsd, hdd]
    intro h
    have := filepathJoin_right_inj _ _ _ h
    exact absurd this (by decide)
  have hne3a : st.tmpDir ≠ st.Root := by rw [htd]; exact filepathJoin_ne _ _
  have hne3b : st.tmpDir ≠ st.distDir := by
    rw [htd, hdd]
    intro h
    have := filepathJoin_right_inj _ _ _ h
    exact absurd this (by decide)
  have hne3c : st.tmpDir ≠ st.serverDir := by
    rw [htd, hsd]
    intro h
    have := filepathJoin_right_inj _ _ _ h
    exact absurd this (by decide)
  have m0 : fs.mkdir st.Root = ({ fs with dirs := fs.dirs ++ [st.Root] }, .ok ()) := by
    unfold FS.mkdir
    rw [if_neg hr, if_pos hp]
  have h1' : st.distDir ∉ fs.dirs ++ [st.Root] := by
    intro hmem
    rcases List.mem_append.mp hmem with hx | hx
    · exact h1 hx
    · exact hne1 (by simpa using hx)
  have hp1 : dirname st.distDir ∈ fs.dirs ++ [st.Root] := by
    rw [hdd, dirname_join _ _ (by decide)]
    exact List.mem_append.mpr (Or.inr (by simp))
  have m1 : FS.mkdir { fs with dirs := fs.dirs ++ [st.Root] } st.distDir =
      ({ fs with dirs := (fs.dirs ++ [st.Root]) ++ [st.distDir] }, .ok ()) := by
    unfold FS.mkdir
    rw [if_neg h1', if_pos hp1]
  have h2' : st.serverDir ∉ (fs.dirs ++ [st.Root]) ++ [st.distDir] := by
    intro hmem
    rcases List.mem_append.mp hmem with hx | hx
    · rcases List.mem_append.mp hx with hy | hy
      · exact h2 hy
      · exact hne2a (by simpa using hy)
    · exact hne2b (by simpa using hx)
  have hp2 : dirname st.serverDir ∈ (fs.dirs ++ [st.Root]) ++ [st.distDir] := by
    rw [hsd, dirname_join _ _ (by decide)]
    exact List.mem_append.mpr (Or.inl (List.mem_append.mpr (Or.inr (by simp))))
  have m2 : FS.mkdir { fs with dirs := (fs.dirs ++ [st.Root]) ++ [st.distDir] }
      st.serverDir =
      ({ fs with
         dirs := ((fs.dirs ++ [st.Root]) ++ [st.distDir]) ++ [st.serverDir] },
       .ok ()) := by
    unfold FS.mkdir
    rw [if_neg h2', if_pos hp2]
  have h3' : st.tmpDir ∉ ((fs.dirs ++ [st.Root]) ++ [st.distDir]) ++ [st.serverDir] := by
    intro hmem
    rcases List.mem_append.mp hmem with hx | hx
    · rcases List.mem_append.mp hx with hy | hy
      · rcases List.mem_append.mp hy with hz | hz
        · exact h3 hz
        · exact hne3a (by simpa using hz)
      · exact hne3b (by simpa using hy)
    · exact hne3c (by simpa using hx)
  have hp3 : dirname st.tmpDir ∈ ((fs.dirs ++ [st.Root]) ++ [st.distDir]) ++ [st.serverDir] := by
    rw [htd, dirname_join _ _ (by decide)]
    exact List.mem_append.mpr
      (Or.inl (List.mem_append.mpr (Or.inl (List.mem_append.mpr (Or.inr (by simp))))))
  have m3 : FS.mkdir
      { fs with dirs := ((fs.dirs ++ [st.Root]) ++ [st.distDir]) ++ [st.serverDir] }
      st.tmpDir =
      ({ fs with
         dirs := (((fs.dirs ++ [st.Root]) ++ [st.distDir]) ++ [st.serverDir])
                   ++ [st.tmpDir] }, .ok ()) := by
    unfold FS.mkdir
    rw [if_neg h3', if_pos hp3]
  unfold Stable.setup
  rw [m0]
  simp only [m1, m2, m3]
  simp [List.append_assoc]

def fsHome : FS := { dirs := ["/home", "/home/u"], files := [] }

/-- C8: `CreateStable` on a fresh path creates exactly the root and the
three working subdirectories (`dist`, `server`, `tmp`), writes
`config.json`, and `OpenStable` on the result succeeds and returns the
identical stable (same distributions, servers and counters);
`CreateStable` on a path whose stable root already exists fails with the
distinct `ErrStableExists` (mapped from the `EEXIST` errno), while other
filesystem errors (here `ENOENT` from a missing parent) pass through
unchanged.  The last conjunct evaluates a concrete run. -/
theorem create_open_stable :
    (∀ (fs : FS) (path : String),
       (newStable path).Root ∉ fs.dirs →
       dirname (newStable path).Root ∈ fs.dirs →
       (newStable path).distDir ∉ fs.dirs →
       (newStable path).serverDir ∉ fs.dirs →
       (newStable path).tmpDir ∉ fs.dirs →
       CreateStable path fs =
         ({ dirs := fs.dirs ++
              [(newStable path).Root, (newStable path).distDir,
               (newStable path).serverDir, (newStable path).tmpDir],
            files := assocSet fs.files (configFile (newStable path))
                       (persistStable (newStable path)) },
          .ok (newStable path))
       ∧ OpenStable path (CreateStable path fs).1 = .ok (newStable path))
    ∧ (∀ (fs : FS) (path : String),
        (newStable path).Root ∈ fs.dirs →
        CreateStable path fs = (fs, .error .stableExists))
    ∧ (∀ (fs : FS) (path : String),
        (newStable path).Root ∉ fs.dirs →
        dirname (newStable path).Root ∉ fs.dirs →
        CreateStable path fs = (fs, .error .enoent))
    ∧ ((CreateStable "/home/u" fsHome).1.dirs =
        ["/home", "/home/u", "/home/u/.stable", "/home/u/.stable/dist",
         "/home/u/.stable/server", "/home/u/.stable/tmp"]
       ∧ OpenStable "/home/u" (CreateStable "/home/u" fsHome).1 =
          .ok (newStable "/home/u")) := by
  refine ⟨?_, ?_, ?_, rfl, rfl⟩
  · intro fs path hr hp h1 h2 h3
    have hset := stableSetup_fresh (newStable path) fs rfl rfl rfl hr hp h1 h2 h3
    have hw : (newStable path).WriteConfig
        { dirs := fs.dirs ++
            [(newStable path).Root, (newStable path).distDir,
             (newStable path).serverDir, (newStable path).tmpDir],
          files := fs.files } =
        ({ dirs := fs.dirs ++
             [(newStable path).Root, (newStable path).distDir,
              (newStable path).serverDir, (newStable path).tmpDir],
           files := assocSet fs.files (configFile (newStable path))
                      (persistStable (newStable path)) }, .ok ()) := by
      unfold Stable.WriteConfig
      rw [if_pos (by simp)]
    have hcreate : CreateStable path fs =
        ({ dirs := fs.dirs ++
             [(newStable path).Root, (newStable path).distDir,
              (newStable path).serverDir, (newStable path).tmpDir],
           files := assocSet fs.files (configFile (newStable path))
                      (persistStable (newStable path)) },
         .ok (newStable path)) := by
      simp only [CreateStable]
      rw [hset]
      simp only [hw]
    refine ⟨hcreate, ?_⟩
    rw [hcreate]
    have hro : ∀ (f : FS),
        assocFind f.files (configFile (newStable path)) =
          some (persistStable (newStable path)) →
        OpenStable path f = .ok (newStable path) := by
      intro f hf
      unfold OpenStable Stable.ReadConfig
      rw [hf]
      rfl
    exact hro _ (assocFind_assocSet_self _ _ _)
  · intro fs path hr
    have m0 : fs.mkdir (newStable path).Root = (fs, .error .eexist) := by
      unfold FS.mkdir
      rw [if_pos hr]
    simp only [CreateStable, Stable.setup]
    rw [m0]
    rfl
  · intro fs path hr hp
    have m0 : fs.mkdir (newStable path).Root = (fs, .error .enoent) := by
      unfold FS.mkdir
      rw [if_neg hr, if_neg hp]
    simp only [CreateStable, Stable.setup]
    rw [m0]
    rfl

end GoMysqld
